import Mathlib

/-!
Verification of the pymake parser core (src/pymake/parser.py) against its
natural-language specification.  The Python source is shallowly embedded:
strings become `List Char`, the mutable logical line (`Data`) becomes an
explicit record threaded through every operation, generators become fuelled
step functions, and Python exceptions become an `Except` error type.
-/

namespace Pymake

/-- Source location: path, 1-based line number, 0-based column
(parserdata.Location). -/
structure Loc where
  path : String
  line : Nat
  col : Nat
deriving Repr, DecidableEq, Inhabited

/-- Modelled from the spec: parserdata.Location addition is outside src/;
the spec says advancing a location by a string renumbers lines on embedded
newlines and resets the column accordingly. -/
def Loc.advance : Loc → List Char → Loc
  | l, [] => l
  | l, c :: rest =>
    if c = '\n' then Loc.advance ⟨l.path, l.line + 1, 0⟩ rest
    else Loc.advance ⟨l.path, l.line, l.col + 1⟩ rest

/-- Python whitespace: the characters matched by str.isspace and by the
regex class backslash-s. -/
def pySpace (c : Char) : Bool :=
  c == ' ' || c == '\t' || c == '\n' || c == '\r' || c == '\x0b' || c == '\x0c'

/-- Python s[b:e] for 0 ≤ b ≤ e (empty when b ≥ e). -/
def slice (l : List Char) (b e : Nat) : List Char :=
  (l.drop b).take (e - b)

/-- Python str.rstrip. -/
def rstripStr (s : List Char) : List Char :=
  (s.reverse.dropWhile pySpace).reverse

/-- Python str.lstrip. -/
def lstripStr (s : List Char) : List Char :=
  s.dropWhile pySpace

/-- Python s.isspace(): nonempty and all whitespace. -/
def allSpace (s : List Char) : Bool :=
  !s.isEmpty && s.all pySpace

/-- A single virtual "line", which can be multiple source lines joined with
continuations (class Data / DynamicData).  `pending` models the shared
line iterator a DynamicData reads from; `locs` is the `_locs` anchor list. -/
structure Data where
  data : List Char
  locs : List (Nat × Loc)
  pending : List (Nat × List Char)
  path : String
deriving Repr, DecidableEq, Inhabited

/-- Data.append: record an anchor at the current length, then extend. -/
def Data.append (d : Data) (s : List Char) (loc : Loc) : Data :=
  { d with data := d.data ++ s, locs := d.locs ++ [(d.data.length, loc)] }

/-- Data.fromstring. -/
def Data.fromstring (s : List Char) (loc : Loc) : Data :=
  Data.append ⟨[], [], [], loc.path⟩ s loc

/-- DynamicData.readline: pull one physical line from the shared stream;
the Bool is False at EOF. -/
def Data.readline (d : Data) : Data × Bool :=
  match d.pending with
  | [] => (d, false)
  | (ln, s) :: rest =>
    ({ Data.append d s ⟨d.path, ln, 0⟩ with pending := rest }, true)

/-- findlast(func, iterable): the fallthrough variable f is returned; it is
unbound (here: `none`) when the iterable is empty or the first element
already fails the predicate. -/
def findlastGo (p : Nat × Loc → Bool) : Option (Nat × Loc) → List (Nat × Loc) → Option (Nat × Loc)
  | f, [] => f
  | f, x :: xs => if p x then findlastGo p (some x) xs else f

/-- findlast over the anchor list. -/
def findlast (p : Nat × Loc → Bool) (l : List (Nat × Loc)) : Option (Nat × Loc) :=
  findlastGo p none l

/-- The length of the leading whitespace run. -/
def countSpaces : List Char → Nat
  | [] => 0
  | c :: rest => if pySpace c then countSpaces rest + 1 else 0

/-- Data.skipwhitespace: advance past whitespace. -/
def skipwsAux (data : List Char) (offset : Nat) : Nat :=
  offset + countSpaces (data.drop offset)

/-- Data.skipwhitespace. -/
def Data.skipwhitespace (d : Data) (offset : Nat) : Nat :=
  skipwsAux d.data offset

/-- The offset clamping of Data.getloc: None and past-end clamp to end-1,
and the resulting -1 of an empty buffer clamps to 0 (which truncated Nat
subtraction already gives). -/
def clampOff (d : Data) : Option Nat → Nat
  | none => d.data.length - 1
  | some o => if o ≥ d.data.length then d.data.length - 1 else o

/-- Data.getloc: clamp the offset, then resolve by the last anchor at or
before it, advanced over the intervening buffer text.  `none` models the
UnboundLocalError raised by findlast when no anchor qualifies. -/
def Data.getloc (d : Data) (offset : Option Nat) : Option Loc :=
  match findlast (fun bl => bl.1 ≤ clampOff d offset) d.locs with
  | none => none
  | some (b, l) => some (Loc.advance l (slice d.data b (clampOff d offset)))

/-- One alternative of a compiled token regex: a literal, the escaped-any
pattern backslash-dot, or the "awful" backslash-whitespace-backslash-newline
pattern. -/
inductive Alt where
  | lit (t : List Char)
  | bsAny
  | bsWsBsNl
deriving Repr, DecidableEq

/-- Match one alternative against the buffer suffix, returning the matched
length.  bsAny is backslash followed by any char except newline; bsWsBsNl is
backslash, a maximal nonempty whitespace run, backslash, newline (greedy,
and no shorter run can backtrack into a backslash since a backslash is not
whitespace). -/
def matchAltLen (s : List Char) : Alt → Option Nat
  | .lit t => if t.isPrefixOf s then some t.length else none
  | .bsAny =>
    match s with
    | c0 :: c1 :: _ =>
      if c0 = '\\' then (if c1 = '\n' then none else some 2) else none
    | _ => none
  | .bsWsBsNl =>
    match s with
    | c0 :: rest =>
      if c0 = '\\' then
        let k := countSpaces rest
        if 0 < k ∧ rest[k]? = some '\\' ∧ rest[k + 1]? = some '\n' then some (k + 3)
        else none
      else none
    | [] => none

/-- Try the alternatives in order against a suffix (Python re alternation is
first-match, not longest-match). -/
def firstMatchLen (alts : List Alt) (s : List Char) : Option Nat :=
  alts.findSome? (matchAltLen s)

/-- Scan a suffix left to right for the first position where some
alternative matches; returns (relative start, matched length). -/
def scanMatch (alts : List Alt) : List Char → Option (Nat × Nat)
  | [] => (firstMatchLen alts []).map (fun n => (0, n))
  | c :: rest =>
    match firstMatchLen alts (c :: rest) with
    | some n => some (0, n)
    | none => (scanMatch alts rest).map (fun p => (p.1 + 1, p.2))

/-- re.search from pos i: returns (matched text, start, end). -/
def research (alts : List Alt) (data : List Char) (i : Nat) : Option (List Char × Nat × Nat) :=
  (scanMatch alts (data.drop i)).map (fun p =>
    (slice data (i + p.1) (i + p.1 + p.2), i + p.1, i + p.1 + p.2))

/-- A token list is the ordered list of literal stop tokens. -/
abbrev TL := List (List Char)

/-- The alternation of TokenList.simplere. -/
def simpleAlts (tl : TL) : List Alt := tl.map Alt.lit

/-- The alternation of TokenList.makefilere: the literals followed by the
escaped makefile meta tokens, in source order. -/
def mkAlts (tl : TL) : List Alt :=
  tl.map Alt.lit ++
    [Alt.lit ['\\', '\\', '#'], Alt.lit ['\\', '#'], Alt.lit ['\\', '\n'],
     Alt.bsWsBsNl, Alt.bsAny, Alt.lit ['#'], Alt.lit ['\n']]

/-- The alternation of TokenList.continuationre. -/
def contAlts (tl : TL) : List Alt :=
  tl.map Alt.lit ++ [Alt.lit ['\\', '\n'], Alt.bsAny, Alt.lit ['\n']]

/-- Whether position j is whitespace or end-of-data: the (backslash-s plus or
end) group of TokenList.wslist. -/
def wsOrEnd (data : List Char) (j : Nat) : Bool :=
  match data[j]? with
  | none => j == data.length
  | some c => pySpace c

/-- Data.findtoken with skipws=True: the first token (in list order) matching
at o and followed by whitespace or end-of-data; skip the whitespace. -/
def findtokenWs (d : Data) (o : Nat) (tl : TL) : Option (List Char) × Nat :=
  match tl.find? (fun t => t.isPrefixOf (d.data.drop o) && wsOrEnd d.data (o + t.length)) with
  | some t => (some t, skipwsAux d.data (o + t.length))
  | none => (none, o)

/-- Data.findtoken with skipws=False: plain first-token match at o. -/
def findtokenSimple (d : Data) (o : Nat) (tl : TL) : Option (List Char) × Nat :=
  match tl.find? (fun t => t.isPrefixOf (d.data.drop o)) with
  | some t => (some t, o + t.length)
  | none => (none, o)

/-- Modelled from the spec: the data.Expansion node sum (data.py is outside
src/): literals, variable references, substitution references and function
calls, each reference carrying its source location. -/
inductive ExpNode where
  | lit (s : List Char)
  | varref (loc : Loc) (name : List ExpNode)
  | substref (loc : Loc) (name from_ to_ : List ExpNode)
  | funccall (loc : Loc) (fname : List Char) (args : List (List ExpNode))
deriving Repr, Inhabited

/-- An Expansion is its ordered node list. -/
abbrev Expansion := List ExpNode

/-- Modelled from the spec: Expansion.append(str) merges into a trailing
Literal when possible; appending the empty string is a no-op. -/
def appendStr : Expansion → List Char → Expansion
  | e, [] => e
  | [], s => [ExpNode.lit s]
  | [ExpNode.lit t], s => [ExpNode.lit (t ++ s)]
  | [x], s => [x, ExpNode.lit s]
  | x :: xs, s => x :: appendStr xs s

/-- Modelled from the spec: Expansion.concat appends the other expansion
element by element, merging literals at the boundary. -/
def concatE (a b : Expansion) : Expansion :=
  b.foldl (fun acc n =>
    match n with
    | ExpNode.lit s => appendStr acc s
    | _ => acc ++ [n]) a

/-- Modelled from the spec: Expansion.rstrip trims whitespace from the
trailing Literal, shrinking or removing it. -/
def rstripE : Expansion → Expansion
  | [] => []
  | [ExpNode.lit s] =>
    let s2 := rstripStr s
    if s2 = [] then [] else [ExpNode.lit s2]
  | [x] => [x]
  | x :: xs => x :: rstripE xs

/-- Modelled from the spec: Expansion.lstrip trims whitespace from the
leading Literal, shrinking or removing it. -/
def lstripE : Expansion → Expansion
  | [] => []
  | ExpNode.lit s :: xs =>
    let s2 := lstripStr s
    if s2 = [] then xs else ExpNode.lit s2 :: xs
  | e => e

/-- Errors: SyntaxError with message and location, a failed Python assert,
the TypeError from re.search(pos=None), an uncaught crash such as the
UnboundLocalError in findlast, and fuel exhaustion of the model. -/
inductive PErr where
  | syntaxErr (msg : List Char) (loc : Loc)
  | assertFail
  | typeErr
  | crash
  | fuel
deriving Repr, DecidableEq

/-- One step of a char-iterator generator: a yield carrying a real token, a
tokenless yield after which the loop continues at `newoff`, or generator
termination (with `yielded` recording whether this step yielded a final
tokenless chunk). -/
inductive IStep where
  | tok (chunk t : List Char) (toff aoff : Nat)
  | cont (chunk : List Char) (newoff : Nat)
  | finish (chunk : List Char) (yielded : Bool)
deriving Repr, DecidableEq

/-- The comment-drain `for s in itermakefilechars(d, end, emptytokenlist)`:
run the makefile iterator with the empty token list purely for its side
effects (continuations still pull lines). -/
def drainMk : Nat → Data → Nat → Except PErr Data
  | 0, _, _ => .error .fuel
  | f + 1, d, offset =>
    if offset < d.data.length then
      match research (mkAlts []) d.data offset with
      | none => .ok d
      | some (txt, _start, e) =>
        if txt = ['\n'] then
          if e = d.data.length then .ok d else .error .assertFail
        else if txt = ['#'] then drainMk f d e
        else if txt = ['\\', '\\', '#'] then drainMk f d e
        else if txt = ['\\', '\n'] then
          let d2 := (d.readline).1
          drainMk f d2 (skipwsAux d2.data e)
        else if txt.head? == some '\\' && txt.getLast? == some '\n' then
          if e = d.data.length then
            let d2 := (d.readline).1
            drainMk f d2 (skipwsAux d2.data e)
          else .error .assertFail
        else drainMk f d e
    else .ok d

/-- One loop iteration of itermakefilechars, with the branch tests in source
order: newline, comment, escaped-escape before comment, continuation, the
"awful" backslash-whitespace continuation, escaped comment, escaped token,
plain token. -/
def mkStep (fuel : Nat) (d : Data) (offset : Nat) (tl : TL) : Except PErr (IStep × Data) :=
  if offset < d.data.length then
    match research (mkAlts tl) d.data offset with
    | none => .ok (.finish (d.data.drop offset) true, d)
    | some (txt, start, e) =>
      if txt = ['\n'] then
        if e = d.data.length then .ok (.finish (slice d.data offset start) true, d)
        else .error .assertFail
      else if txt = ['#'] then
        match drainMk fuel d e with
        | .error er => .error er
        | .ok d2 => .ok (.finish (slice d.data offset start) true, d2)
      else if txt = ['\\', '\\', '#'] then
        match drainMk fuel d e with
        | .error er => .error er
        | .ok d2 => .ok (.finish (slice d.data offset (start + 1)) true, d2)
      else if txt = ['\\', '\n'] then
        let d2 := (d.readline).1
        .ok (.cont (rstripStr (slice d.data offset start) ++ [' ']) (skipwsAux d2.data e), d2)
      else if txt.head? == some '\\' && txt.getLast? == some '\n' then
        if e = d.data.length then
          let d2 := (d.readline).1
          .ok (.cont (slice d.data offset start ++ ['\\', ' ']) (skipwsAux d2.data e), d2)
        else .error .assertFail
      else if txt = ['\\', '#'] then
        .ok (.cont (slice d.data offset start ++ ['#']) e, d)
      else if txt.head? == some '\\' then
        if txt.drop 1 ∈ tl then
          .ok (.tok (slice d.data offset (start + 1)) (txt.drop 1) (start + 1) e, d)
        else .ok (.cont (slice d.data offset e) e, d)
      else .ok (.tok (slice d.data offset start) txt start e, d)
  else .ok (.finish [] false, d)

/-- One loop iteration of itercommandchars: backslash-newline is kept
byte-for-byte and one following TAB of the pulled line is skipped. -/
def cmdStep (d : Data) (offset : Nat) (tl : TL) : Except PErr (IStep × Data) :=
  if offset < d.data.length then
    match research (contAlts tl) d.data offset with
    | none => .ok (.finish (d.data.drop offset) true, d)
    | some (txt, start, e) =>
      if txt = ['\n'] then
        if e = d.data.length then .ok (.finish (slice d.data offset start) true, d)
        else .error .assertFail
      else if txt = ['\\', '\n'] then
        let d2 := (d.readline).1
        let noff := if d2.data[e]? = some '\t' then e + 1 else e
        .ok (.cont (slice d.data offset e) noff, d2)
      else if txt.head? == some '\\' then
        if txt.drop 1 ∈ tl then
          .ok (.tok (slice d.data offset (start + 1)) (txt.drop 1) (start + 1) e, d)
        else .ok (.cont (slice d.data offset e) e, d)
      else .ok (.tok (slice d.data offset start) txt start e, d)
  else .ok (.finish [] false, d)

/-- One step of iterdata: the empty token list short-circuits, yielding the
whole buffer (not the remainder); otherwise plain literal-token search. -/
def dataStep (d : Data) (offset : Nat) (tl : TL) : Except PErr (IStep × Data) :=
  if tl.isEmpty then .ok (.finish d.data true, d)
  else if offset < d.data.length then
    match research (simpleAlts tl) d.data offset with
    | none => .ok (.finish (d.data.drop offset) true, d)
    | some (txt, start, e) => .ok (.tok (slice d.data offset start) txt start e, d)
  else .ok (.finish [] false, d)

/-- The define/endef keyword token list. -/
def definestokenlist : TL := [("define".data), ("endef".data)]

/-- iterdefinechars.checkfortoken: +1 for define, -1 for endef, 0 otherwise,
on the line starting at o (TAB lines are never keywords). -/
def checkfortoken (d : Data) (o : Nat) : Int :=
  if o ≥ d.data.length then 0
  else if d.data[o]? = some '\t' then 0
  else
    let o2 := skipwsAux d.data o
    match (findtokenWs d o2 definestokenlist).1 with
    | some t => if t = ("define".data) then 1 else if t = ("endef".data) then -1 else 0
    | none => 0

/-- One loop iteration of iterdefinechars; `dc` is the running definecount
and `startoffset` locates the SyntaxError when the body is unterminated.  A
newline pulls the next line, updates the count, and on reaching zero emits
the body up to (but not including) the newline and terminates. -/
def defStep (d : Data) (offset : Nat) (tl : TL) (dc : Int) (startoffset : Nat) :
    Except PErr (IStep × Data × Int) :=
  if offset < d.data.length then
    match research (contAlts tl) d.data offset with
    | none =>
      match d.getloc (some startoffset) with
      | some l => .error (.syntaxErr ("Unterminated define".data) l)
      | none => .error .crash
    | some (txt, start, e) =>
      if txt = ['\\', '\n'] then
        let d2 := (d.readline).1
        .ok (.cont (rstripStr (slice d.data offset start) ++ [' ']) (skipwsAux d2.data e), d2, dc)
      else if txt = ['\n'] then
        if e = d.data.length then
          let d2 := (d.readline).1
          let dc2 := dc + checkfortoken d2 e
          if dc2 = 0 then .ok (.finish (slice d.data offset start) true, d2, dc2)
          else .ok (.cont (slice d.data offset e) e, d2, dc2)
        else .error .assertFail
      else if txt.head? == some '\\' then
        if txt.drop 1 ∈ tl then
          .ok (.tok (slice d.data offset (start + 1)) (txt.drop 1) (start + 1) e, d, dc)
        else .ok (.cont (slice d.data offset e) e, d, dc)
      else .ok (.tok (slice d.data offset start) txt start e, d, dc)
  else
    match d.getloc (some startoffset) with
    | some l => .error (.syntaxErr ("Unterminated define".data) l)
    | none => .error .crash

/-- The outcome of consuming a generator up to its next real token:
a token, or termination (with whether anything was yielded). -/
inductive NextRes where
  | tok (t : List Char) (toff aoff : Nat)
  | done (yielded : Bool)
deriving Repr, DecidableEq

/-- Consume itermakefilechars up to the next real token, concatenating the
tokenless chunks yielded on the way. -/
def mkNext : Nat → Data → Nat → TL → Except PErr (List Char × NextRes × Data)
  | 0, _, _, _ => .error .fuel
  | f + 1, d, off, tl =>
    match mkStep f d off tl with
    | .error er => .error er
    | .ok (.finish chunk y, d2) => .ok (chunk, .done y, d2)
    | .ok (.tok chunk t toff aoff, d2) => .ok (chunk, .tok t toff aoff, d2)
    | .ok (.cont chunk noff, d2) =>
      match mkNext f d2 noff tl with
      | .error er => .error er
      | .ok (rest, .done _, d3) => .ok (chunk ++ rest, .done true, d3)
      | .ok (rest, r, d3) => .ok (chunk ++ rest, r, d3)

/-- Consume itercommandchars up to the next real token. -/
def cmdNext : Nat → Data → Nat → TL → Except PErr (List Char × NextRes × Data)
  | 0, _, _, _ => .error .fuel
  | f + 1, d, off, tl =>
    match cmdStep d off tl with
    | .error er => .error er
    | .ok (.finish chunk y, d2) => .ok (chunk, .done y, d2)
    | .ok (.tok chunk t toff aoff, d2) => .ok (chunk, .tok t toff aoff, d2)
    | .ok (.cont chunk noff, d2) =>
      match cmdNext f d2 noff tl with
      | .error er => .error er
      | .ok (rest, .done _, d3) => .ok (chunk ++ rest, .done true, d3)
      | .ok (rest, r, d3) => .ok (chunk ++ rest, r, d3)

/-- Consume iterdata up to the next real token. -/
def dataNext : Nat → Data → Nat → TL → Except PErr (List Char × NextRes × Data)
  | 0, _, _, _ => .error .fuel
  | _ + 1, d, off, tl =>
    match dataStep d off tl with
    | .error er => .error er
    | .ok (.finish chunk y, d2) => .ok (chunk, .done y, d2)
    | .ok (.tok chunk t toff aoff, d2) => .ok (chunk, .tok t toff aoff, d2)
    | .ok (.cont _ _, _) => .error .crash

/-- Consume iterdefinechars up to the next real token, threading the
definecount. -/
def defLoop : Nat → Data → Nat → TL → Int → Nat → Except PErr (List Char × NextRes × Data × Int)
  | 0, _, _, _, _, _ => .error .fuel
  | f + 1, d, off, tl, dc, so =>
    match defStep d off tl dc so with
    | .error er => .error er
    | .ok (.finish chunk y, d2, dc2) => .ok (chunk, .done y, d2, dc2)
    | .ok (.tok chunk t toff aoff, d2, dc2) => .ok (chunk, .tok t toff aoff, d2, dc2)
    | .ok (.cont chunk noff, d2, dc2) =>
      match defLoop f d2 noff tl dc2 so with
      | .error er => .error er
      | .ok (rest, .done _, d3, dc3) => .ok (chunk ++ rest, .done true, d3, dc3)
      | .ok (rest, r, d3, dc3) => .ok (chunk ++ rest, r, d3, dc3)

/-- A fresh iterdefinechars generator: initialize definecount from the first
body line (an immediate endef gives an empty generator), then loop. -/
def defNext (fuel : Nat) (d : Data) (off : Nat) (tl : TL) :
    Except PErr (List Char × NextRes × Data) :=
  let dc : Int := 1 + checkfortoken d off
  if dc = 0 then .ok ([], .done false, d)
  else
    match defLoop fuel d off tl dc off with
    | .error er => .error er
    | .ok (chunk, r, d2, _) => .ok (chunk, r, d2)

/-- The four char-iterator regimes. -/
inductive IterKind where
  | dataIter
  | makefile
  | command
  | defineBody
deriving Repr, DecidableEq

/-- A fresh generator of the given regime, consumed up to its next real
token. -/
def iterNext : IterKind → Nat → Data → Nat → TL → Except PErr (List Char × NextRes × Data)
  | .dataIter => dataNext
  | .makefile => mkNext
  | .command => cmdNext
  | .defineBody => defNext

/-- _iterflatten over itermakefilechars: join every yielded chunk. -/
def mkFlatten : Nat → Data → Nat → TL → Except PErr (List Char × Data)
  | 0, _, _, _ => .error .fuel
  | f + 1, d, off, tl =>
    match mkStep f d off tl with
    | .error er => .error er
    | .ok (.finish chunk _, d2) => .ok (chunk, d2)
    | .ok (.cont chunk noff, d2) =>
      match mkFlatten f d2 noff tl with
      | .error er => .error er
      | .ok (rest, d3) => .ok (chunk ++ rest, d3)
    | .ok (.tok chunk _ _ aoff, d2) =>
      match mkFlatten f d2 aoff tl with
      | .error er => .error er
      | .ok (rest, d3) => .ok (chunk ++ rest, d3)

/-- The loop part of _iterflatten over iterdefinechars. -/
def defFlattenLoop : Nat → Data → Nat → TL → Int → Nat → Except PErr (List Char × Data)
  | 0, _, _, _, _, _ => .error .fuel
  | f + 1, d, off, tl, dc, so =>
    match defStep d off tl dc so with
    | .error er => .error er
    | .ok (.finish chunk _, d2, _) => .ok (chunk, d2)
    | .ok (.cont chunk noff, d2, dc2) =>
      match defFlattenLoop f d2 noff tl dc2 so with
      | .error er => .error er
      | .ok (rest, d3) => .ok (chunk ++ rest, d3)
    | .ok (.tok chunk _ _ aoff, d2, dc2) =>
      match defFlattenLoop f d2 aoff tl dc2 so with
      | .error er => .error er
      | .ok (rest, d3) => .ok (chunk ++ rest, d3)

/-- _iterflatten over iterdefinechars. -/
def defFlatten (fuel : Nat) (d : Data) (off : Nat) (tl : TL) : Except PErr (List Char × Data) :=
  let dc : Int := 1 + checkfortoken d off
  if dc = 0 then .ok ([], d)
  else defFlattenLoop fuel d off tl dc off

/-- A yielded 4-tuple, with the token part collapsed to an option of
(token, tokenoffset, afteroffset). -/
abbrev YTuple := List Char × Option (List Char × Nat × Nat)

/-- Every tuple yielded by itermakefilechars. -/
def mkAll : Nat → Data → Nat → TL → Except PErr (List YTuple × Data)
  | 0, _, _, _ => .error .fuel
  | f + 1, d, off, tl =>
    match mkStep f d off tl with
    | .error er => .error er
    | .ok (.finish chunk y, d2) => .ok (if y then [(chunk, none)] else [], d2)
    | .ok (.cont chunk noff, d2) =>
      match mkAll f d2 noff tl with
      | .error er => .error er
      | .ok (rest, d3) => .ok ((chunk, none) :: rest, d3)
    | .ok (.tok chunk t toff aoff, d2) =>
      match mkAll f d2 aoff tl with
      | .error er => .error er
      | .ok (rest, d3) => .ok ((chunk, some (t, toff, aoff)) :: rest, d3)

/-- Every tuple yielded by itercommandchars. -/
def cmdAll : Nat → Data → Nat → TL → Except PErr (List YTuple × Data)
  | 0, _, _, _ => .error .fuel
  | f + 1, d, off, tl =>
    match cmdStep d off tl with
    | .error er => .error er
    | .ok (.finish chunk y, d2) => .ok (if y then [(chunk, none)] else [], d2)
    | .ok (.cont chunk noff, d2) =>
      match cmdAll f d2 noff tl with
      | .error er => .error er
      | .ok (rest, d3) => .ok ((chunk, none) :: rest, d3)
    | .ok (.tok chunk t toff aoff, d2) =>
      match cmdAll f d2 aoff tl with
      | .error er => .error er
      | .ok (rest, d3) => .ok ((chunk, some (t, toff, aoff)) :: rest, d3)

/-- Every tuple yielded by iterdata. -/
def dataAll : Nat → Data → Nat → TL → Except PErr (List YTuple × Data)
  | 0, _, _, _ => .error .fuel
  | f + 1, d, off, tl =>
    match dataStep d off tl with
    | .error er => .error er
    | .ok (.finish chunk y, d2) => .ok (if y then [(chunk, none)] else [], d2)
    | .ok (.cont chunk noff, d2) =>
      match dataAll f d2 noff tl with
      | .error er => .error er
      | .ok (rest, d3) => .ok ((chunk, none) :: rest, d3)
    | .ok (.tok chunk t toff aoff, d2) =>
      match dataAll f d2 aoff tl with
      | .error er => .error er
      | .ok (rest, d3) => .ok ((chunk, some (t, toff, aoff)) :: rest, d3)

/-- The loop part of the full tuple stream of iterdefinechars. -/
def defAllLoop : Nat → Data → Nat → TL → Int → Nat → Except PErr (List YTuple × Data)
  | 0, _, _, _, _, _ => .error .fuel
  | f + 1, d, off, tl, dc, so =>
    match defStep d off tl dc so with
    | .error er => .error er
    | .ok (.finish chunk y, d2, _) => .ok (if y then [(chunk, none)] else [], d2)
    | .ok (.cont chunk noff, d2, dc2) =>
      match defAllLoop f d2 noff tl dc2 so with
      | .error er => .error er
      | .ok (rest, d3) => .ok ((chunk, none) :: rest, d3)
    | .ok (.tok chunk t toff aoff, d2, dc2) =>
      match defAllLoop f d2 aoff tl dc2 so with
      | .error er => .error er
      | .ok (rest, d3) => .ok ((chunk, some (t, toff, aoff)) :: rest, d3)

/-- Every tuple yielded by iterdefinechars. -/
def defAll (fuel : Nat) (d : Data) (off : Nat) (tl : TL) : Except PErr (List YTuple × Data) :=
  let dc : Int := 1 + checkfortoken d off
  if dc = 0 then .ok ([], d)
  else defAllLoop fuel d off tl dc off

/-- A chunk that fails the ensureend test: nonempty and not all
whitespace. -/
def badChunk (c : List Char) : Bool :=
  !c.isEmpty && !(c.all pySpace)

/-- The loop of ensureend: walk the makefile iterator with the empty token
list; the first offending chunk raises at the location of the tuple's token
offset (None for tokenless chunks), computed against the buffer as it stood
when that chunk was yielded. -/
def ensureendGo : Nat → Data → Nat → List Char → Except PErr Data
  | 0, _, _, _ => .error .fuel
  | f + 1, d, off, msg =>
    match mkStep f d off [] with
    | .error er => .error er
    | .ok (.finish chunk y, d2) =>
      if y && badChunk chunk then
        match d.getloc none with
        | some l => .error (.syntaxErr msg l)
        | none => .error .crash
      else .ok d2
    | .ok (.cont chunk noff, d2) =>
      if badChunk chunk then
        match d.getloc none with
        | some l => .error (.syntaxErr msg l)
        | none => .error .crash
      else ensureendGo f d2 noff msg
    | .ok (.tok chunk _ toff aoff, d2) =>
      if badChunk chunk then
        match d.getloc (some toff) with
        | some l => .error (.syntaxErr msg l)
        | none => .error .crash
      else ensureendGo f d2 aoff msg

/-- ensureend: only whitespace may remain.  An offset of None reaches
re.search with pos=None inside the iterator, a TypeError. -/
def ensureend (fuel : Nat) (d : Data) (offset : Option Nat) (msg : List Char) :
    Except PErr Data :=
  match offset with
  | none => .error .typeErr
  | some o => ensureendGo fuel d o msg

/-- Modelled from the spec: functions.functionmap is outside src/; the
parser needs only each function name with its maximum argument count
(0 meaning unbounded), and the token list of all names sorted descending by
length so that the longest name wins. -/
def functionsTable : List (List Char × Nat) :=
  [(("addprefix".data), 2), (("addsuffix".data), 2), (("wildcard".data), 1),
   (("warning".data), 1), (("subst".data), 3), (("words".data), 1),
   (("word".data), 2), (("sort".data), 1), (("if".data), 3), (("or".data), 0)]

/-- The process-wide function-name token list. -/
def functiontokenlist : TL := functionsTable.map (·.1)

/-- The maximum argument count of a known function. -/
def fnMaxargs (n : List Char) : Nat :=
  ((functionsTable.find? (fun p => p.1 == n)).map (·.2)).getD 0

/-- The matching close brace. -/
def matchingbrace (c : Char) : Char :=
  if c = '(' then ')' else '}'

/-- The parsemakesyntax parse states. -/
inductive PState where
  | toplevel
  | functionCall
  | varname
  | substfrom
  | substto
  | parenmatch
deriving Repr, DecidableEq

/-- ParseStackFrame: state tag, the expansion being filled, the active token
list, the brace pair, and the state-specific slots (function name, closed
arguments and maximum count; variable-reference location, name and
substitution "from" part). -/
structure Frame where
  parsestate : PState
  expansion : Expansion
  tokenlist : TL
  openbrace : Option Char
  closebrace : Option Char
  fname : List Char := []
  fargs : List Expansion := []
  maxargs : Nat := 0
  floc : Loc := default
  vloc : Loc := default
  varname : Expansion := []
  substfrom : Expansion := []
deriving Repr

/-- The result of parsemakesyntax: the expansion, the stop token with the
offset just after it (None when the whole logical line was consumed), the
final state of the logical line, and the warnings logged (by location). -/
structure PMSRes where
  exp : Expansion
  stopped : Option (List Char × Nat)
  d : Data
  warnings : List Loc
deriving Repr, Inhabited

/-- The effect of processing one real token inside parsemakesyntax: return
from the top level, continue the loop with a new stack and scan offset, or
break out of the loop (an unterminated dollar at end of data). -/
inductive DOut where
  | ret (r : PMSRes)
  | next (stack : List Frame) (scan : Nat) (warns : List Loc)
  | brk (offvar : Option Nat)
deriving Repr, Inhabited

/-- The token dispatch of parsemakesyntax, with the branches in source
order: dollar, a literal open brace (paren tracking), then by parse state. -/
def dispatch (d : Data) (t : List Char) (toff aoff : Nat) (top : Frame) (rest : List Frame)
    (warns : List Loc) : Except PErr DOut :=
  if t = ['$'] then
    if d.data.length = aoff then .ok (.brk (some aoff))
    else
      match d.getloc (some toff) with
      | none => .error .crash
      | some loc =>
        match d.data[aoff]? with
        | none => .error .crash
        | some c =>
          if c = '$' then
            .ok (.next ({ top with expansion := appendStr top.expansion ['$'] } :: rest)
              (aoff + 1) warns)
          else if c = '(' || c = '{' then
            let cb := matchingbrace c
            match findtokenWs d (aoff + 1) functiontokenlist with
            | (some fn, o2) =>
              let ma := fnMaxargs fn
              let tl2 : TL := if 1 = ma then [[c], [cb], ['$']] else [[','], [c], [cb], ['$']]
              let fr : Frame :=
                { parsestate := .functionCall, expansion := [], tokenlist := tl2,
                  openbrace := some c, closebrace := some cb,
                  fname := fn, fargs := [], maxargs := ma, floc := loc }
              .ok (.next (fr :: top :: rest) o2 warns)
            | (none, o2) =>
              let fr : Frame :=
                { parsestate := .varname, expansion := [],
                  tokenlist := [[':'], [c], [cb], ['$']],
                  openbrace := some c, closebrace := some cb, vloc := loc }
              .ok (.next (fr :: top :: rest) o2 warns)
          else
            .ok (.next
              ({ top with
                  expansion := top.expansion ++ [ExpNode.varref loc [ExpNode.lit [c]]] } :: rest)
              (aoff + 1) warns)
  else if t = ['('] || t = ['{'] then
    if top.openbrace = t.head? then
      match top.closebrace with
      | none => .error .crash
      | some cb =>
        match d.getloc (some toff) with
        | none => .error .crash
        | some ploc =>
          let exp2 := appendStr top.expansion t
          let pf : Frame :=
            { parsestate := .parenmatch, expansion := exp2, tokenlist := [t, [cb]],
              openbrace := t.head?, closebrace := some cb, vloc := ploc }
          .ok (.next (pf :: { top with expansion := exp2 } :: rest) aoff warns)
    else .error .assertFail
  else if top.parsestate = .parenmatch then
    if top.closebrace.map (fun c => [c]) = some t then
      match rest with
      | [] => .error .crash
      | p :: rest2 =>
        .ok (.next ({ p with expansion := appendStr top.expansion t } :: rest2) aoff warns)
    else .error .assertFail
  else if top.parsestate = .toplevel then
    if rest.isEmpty then .ok (.ret ⟨top.expansion, some (t, aoff), d, warns⟩)
    else .error .assertFail
  else if top.parsestate = .functionCall then
    if t = [','] then
      let fargs2 := top.fargs ++ [top.expansion]
      match top.openbrace, top.closebrace with
      | some ob, some cb =>
        let tl2 : TL :=
          if fargs2.length + 1 = top.maxargs then [[ob], [cb], ['$']] else top.tokenlist
        .ok (.next ({ top with expansion := [], fargs := fargs2, tokenlist := tl2 } :: rest)
          aoff warns)
      | _, _ => .error .crash
    else if t = [')'] || t = ['}'] then
      match rest with
      | [] => .error .crash
      | p :: rest2 =>
        let node := ExpNode.funccall top.floc top.fname (top.fargs ++ [top.expansion])
        .ok (.next ({ p with expansion := p.expansion ++ [node] } :: rest2) aoff warns)
    else .error .assertFail
  else if top.parsestate = .varname then
    if t = [':'] then
      match top.openbrace, top.closebrace with
      | some ob, some cb =>
        .ok (.next ({ top with
              varname := top.expansion, parsestate := .substfrom,
              expansion := [], tokenlist := [['='], [ob], [cb], ['$']] } :: rest) aoff warns)
      | _, _ => .error .crash
    else if t = [')'] || t = ['}'] then
      match rest with
      | [] => .error .crash
      | p :: rest2 =>
        let node := ExpNode.varref top.vloc top.expansion
        .ok (.next ({ p with expansion := p.expansion ++ [node] } :: rest2) aoff warns)
    else .error .assertFail
  else if top.parsestate = .substfrom then
    if t = ['='] then
      match top.openbrace, top.closebrace with
      | some ob, some cb =>
        .ok (.next ({ top with
              substfrom := top.expansion, parsestate := .substto,
              expansion := [], tokenlist := [[ob], [cb], ['$']] } :: rest) aoff warns)
      | _, _ => .error .crash
    else if t = [')'] || t = ['}'] then
      match rest with
      | [] => .error .crash
      | p :: rest2 =>
        let vn := concatE (appendStr top.varname [':']) top.expansion
        let node := ExpNode.varref top.vloc vn
        .ok (.next ({ p with expansion := p.expansion ++ [node] } :: rest2) aoff
          (warns ++ [top.vloc]))
    else .error .assertFail
  else
    if t = [')'] || t = ['}'] then
      match rest with
      | [] => .error .crash
      | p :: rest2 =>
        let node := ExpNode.substref top.vloc top.varname top.substfrom top.expansion
        .ok (.next ({ p with expansion := p.expansion ++ [node] } :: rest2) aoff warns)
    else .error .assertFail

/-- The message of the unterminated-expansion error. -/
def untermMsg : List Char := "Unterminated function call".data

/-- The main loop of parsemakesyntax: pull the next token from the active
iterator, append the tokenless chunks to the top expansion, dispatch, and
recreate the iterator; iterator exhaustion with open frames raises the
unterminated-function-call SyntaxError at the loop offset variable (None
after a tokenless yield). -/
def plLoop : Nat → IterKind → Data → Nat → List Frame → Option Nat → List Loc →
    Except PErr PMSRes
  | 0, _, _, _, _, _, _ => .error .fuel
  | f + 1, ik, d, scan, stack, offvar, warns =>
    match stack with
    | [] => .error .crash
    | top :: rest =>
      match iterNext ik (f + 1) d scan top.tokenlist with
      | .error er => .error er
      | .ok (chunk, .done y, d2) =>
        let top2 := { top with expansion := appendStr top.expansion chunk }
        if rest.isEmpty then .ok ⟨top2.expansion, none, d2, warns⟩
        else
          match d2.getloc (if y then none else offvar) with
          | some l => .error (.syntaxErr untermMsg l)
          | none => .error .crash
      | .ok (chunk, .tok t toff aoff, d2) =>
        let top2 := { top with expansion := appendStr top.expansion chunk }
        match dispatch d2 t toff aoff top2 rest warns with
        | .error er => .error er
        | .ok (.ret r) => .ok r
        | .ok (.brk ov) =>
          if rest.isEmpty then .ok ⟨top2.expansion, none, d2, warns⟩
          else
            match d2.getloc ov with
            | some l => .error (.syntaxErr untermMsg l)
            | none => .error .crash
        | .ok (.next stack2 scan2 warns2) => plLoop f ik d2 scan2 stack2 (some scan2) warns2

/-- parsemakesyntax: build the top-level frame (its expansion is created at
the location of the start offset, so that resolution is still performed)
and run the loop. -/
def pms (fuel : Nat) (ik : IterKind) (d : Data) (startat : Nat) (stopon : TL) :
    Except PErr PMSRes :=
  match d.getloc (some startat) with
  | none => .error .crash
  | some _ =>
    let f0 : Frame :=
      { parsestate := .toplevel, expansion := [], tokenlist := stopon ++ [['$']],
        openbrace := none, closebrace := none }
    plLoop fuel ik d startat [f0] none []

/-- Raise a SyntaxError at the resolved location (a crash when resolution
itself fails). -/
def raiseAt {α : Type} (d : Data) (off : Option Nat) (msg : List Char) : Except PErr α :=
  match d.getloc off with
  | some l => .error (.syntaxErr msg l)
  | none => .error .crash

/-- A single quote character. -/
def squote : Char := Char.ofNat 39

/-- parserdata condition variants (parserdata.py is outside src/; modelled
from the spec). -/
inductive Cond where
  | eqCond (expected : Bool) (a b : Expansion)
  | ifdefCond (expected : Bool) (e : Expansion)
  | elseCond

/-- parserdata statement variants (parserdata.py is outside src/; modelled
from the spec). -/
inductive Stmt where
  | setVariable (nameE : Expansion) (value : List Char) (valueloc : Loc) (tok : List Char)
      (targetexp : Option Expansion) (isOverride : Bool)
  | ruleStmt (targets deps : Expansion) (doublecolon : Bool)
  | staticPatternRule (targets pattern deps : Expansion) (doublecolon : Bool)
  | command (e : Expansion)
  | includeStmt (e : Expansion) (required : Bool)
  | vpathStmt (e : Expansion)
  | exportStmt (e : Expansion) (single : Bool)
  | emptyDirective (e : Expansion)
  | condBlock (loc : Loc) (arms : List (Cond × List Stmt))

/-- An open ConditionBlock: its location, the completed arms, and the
current arm being filled. -/
structure CondFrame where
  loc : Loc
  armsDone : List (Cond × List Stmt)
  curCond : Cond
  curStmts : List Stmt

/-- The conditional stack: the bottom StatementList plus the open
ConditionBlocks (head innermost). -/
structure CStack where
  base : List Stmt
  frames : List CondFrame

/-- condstack[-1].append(statement). -/
def CStack.push1 (cs : CStack) (s : Stmt) : CStack :=
  match cs.frames with
  | [] => { cs with base := cs.base ++ [s] }
  | f :: fs => { cs with frames := { f with curStmts := f.curStmts ++ [s] } :: fs }

/-- condstack[-1].addcondition: close the current arm and open a new one. -/
def CStack.addcondition (cs : CStack) (c : Cond) : CStack :=
  match cs.frames with
  | [] => cs
  | f :: fs =>
    { cs with frames :=
        { f with armsDone := f.armsDone ++ [(f.curCond, f.curStmts)],
                 curCond := c, curStmts := [] } :: fs }

/-- condstack.pop(): seal the open block and append it where it was opened
(the Python code appends the mutable block at open time; appending the
sealed block at close time yields the same statement order because nothing
is appended to the parent in between). -/
def CStack.popBlock (cs : CStack) : CStack :=
  match cs.frames with
  | [] => cs
  | f :: fs =>
    CStack.push1 { cs with frames := fs }
      (Stmt.condBlock f.loc (f.armsDone ++ [(f.curCond, f.curStmts)]))

/-- The ifeq argument-opening token list. -/
def eqargstokenlist : TL := [['('], [squote], ['"']]

/-- The ifeq/ifneq condition parser, in both the parenthesized and the
quoted forms.  In the quoted form the second argument's stop offset is
passed to ensureend unchecked: when the closing quote is missing it is
None. -/
def ifeqParse (fuel : Nat) (d : Data) (offset : Nat) (expected : Bool) :
    Except PErr (Cond × Data) :=
  match findtokenSimple d offset eqargstokenlist with
  | (none, o) => raiseAt d (some o) ("No arguments after conditional".data)
  | (some tk, o) =>
    if tk = ['('] then
      match pms fuel .makefile d o [[',']] with
      | .error er => .error er
      | .ok r1 =>
        match r1.stopped with
        | none => raiseAt r1.d none ("Expected two arguments in conditional".data)
        | some (_, o2) =>
          let arg1 := rstripE r1.exp
          let o3 := r1.d.skipwhitespace o2
          match pms fuel .makefile r1.d o3 [[')']] with
          | .error er => .error er
          | .ok r2 =>
            match r2.stopped with
            | none => raiseAt r2.d none ("Unexpected text in conditional".data)
            | some (_, o4) =>
              match ensureend fuel r2.d (some o4) ("Unexpected text after conditional".data) with
              | .error er => .error er
              | .ok d4 => .ok (Cond.eqCond expected arg1 r2.exp, d4)
    else
      match pms fuel .makefile d o [tk] with
      | .error er => .error er
      | .ok r1 =>
        match r1.stopped with
        | none => raiseAt r1.d none ("Unexpected text in conditional".data)
        | some (_, o2) =>
          let o3 := r1.d.skipwhitespace o2
          if o3 = r1.d.data.length then
            raiseAt r1.d (some o3) ("Expected two arguments in conditional".data)
          else
            match r1.d.data[o3]? with
            | none => .error .crash
            | some q =>
              if q = squote || q = '"' then
                match pms fuel .makefile r1.d (o3 + 1) [[q]] with
                | .error er => .error er
                | .ok r2 =>
                  match ensureend fuel r2.d (r2.stopped.map (·.2))
                      ("Unexpected text after conditional".data) with
                  | .error er => .error er
                  | .ok d4 => .ok (Cond.eqCond expected r1.exp r2.exp, d4)
              else raiseAt r1.d (some o3) ("Unexpected text in conditional".data)

/-- The ifdef/ifndef condition parser. -/
def ifdefParse (fuel : Nat) (d : Data) (offset : Nat) (expected : Bool) :
    Except PErr (Cond × Data) :=
  match pms fuel .makefile d offset [] with
  | .error er => .error er
  | .ok r => .ok (Cond.ifdefCond expected (rstripE r.exp), r.d)

/-- Dispatch on a condition keyword. -/
def condParse (fuel : Nat) (kw : List Char) (d : Data) (offset : Nat) :
    Except PErr (Cond × Data) :=
  if kw = ("ifeq".data) then ifeqParse fuel d offset true
  else if kw = ("ifneq".data) then ifeqParse fuel d offset false
  else if kw = ("ifdef".data) then ifdefParse fuel d offset true
  else if kw = ("ifndef".data) then ifdefParse fuel d offset false
  else .error .crash

/-- The condition keyword token list (conditionkeywords, in insertion
order; no keyword is a prefix of another so the order is immaterial). -/
def conditionkeywordstokenlist : TL :=
  [("ifeq".data), ("ifneq".data), ("ifdef".data), ("ifndef".data)]

/-- The directive token list. -/
def directivestokenlist : TL :=
  conditionkeywordstokenlist ++
    [("else".data), ("endif".data), ("define".data), ("endef".data), ("override".data),
     ("include".data), ("-include".data), ("vpath".data), ("export".data),
     ("unexport".data)]

/-- The variable-assignment operator token list (longest first so that the
alternation prefers the two-character operators). -/
def varsettokens : TL := [(":=".data), ("+=".data), ("?=".data), ("=".data)]

/-- The rule branch of the statement parser: after the targets expression
stopped on a rule operator, parse the right-hand side and classify as rule,
rule plus command, target-specific variable, order-only error, or static
pattern rule.  Returns the new stack, the new currule, and the line. -/
def handleRule (fuel : Nat) (d : Data) (cs : CStack) (targets : Expansion) (tok : List Char)
    (o2 : Nat) : Except PErr (CStack × Bool × Data) :=
  let doublecolon := tok = ("::".data)
  match pms fuel .makefile d o2 (varsettokens ++ [(":".data), ("|".data), (";".data)]) with
  | .error er => .error er
  | .ok r2 =>
    match r2.stopped with
    | none => .ok (cs.push1 (Stmt.ruleStmt targets r2.exp doublecolon), true, r2.d)
    | some (tok2, o3) =>
      if tok2 = (";".data) then
        let cs2 := cs.push1 (Stmt.ruleStmt targets r2.exp doublecolon)
        let o4 := r2.d.skipwhitespace o3
        match pms fuel .command r2.d o4 [] with
        | .error er => .error er
        | .ok r3 => .ok (cs2.push1 (Stmt.command r3.exp), true, r3.d)
      else if tok2 ∈ varsettokens then
        let v := rstripE (lstripE r2.exp)
        match mkFlatten fuel r2.d o3 [] with
        | .error er => .error er
        | .ok (val, d3) =>
          match d3.getloc (some o3) with
          | none => .error .crash
          | some vloc =>
            .ok (cs.push1 (Stmt.setVariable v (lstripStr val) vloc tok2 (some targets) false),
              false, d3)
      else if tok2 = ("|".data) then
        raiseAt r2.d (some o3) ("order-only prerequisites not implemented".data)
      else
        let pattern := r2.exp
        match pms fuel .makefile r2.d o3 [(";".data)] with
        | .error er => .error er
        | .ok r3 =>
          let cs2 := cs.push1 (Stmt.staticPatternRule targets pattern r3.exp doublecolon)
          match r3.stopped with
          | some (_, o4) =>
            let o5 := r3.d.skipwhitespace o4
            match pms fuel .command r3.d o5 [] with
            | .error er => .error er
            | .ok r4 => .ok (cs2.push1 (Stmt.command r4.exp), true, r4.d)
          | none => .ok (cs2, true, r3.d)

/-- The no-directive branch of the statement parser: variable assignment,
rule, or a bare expression (EmptyDirective, which leaves currule alone). -/
def handleNoDirective (fuel : Nat) (d : Data) (currule : Bool) (cs : CStack) (offset : Nat) :
    Except PErr (CStack × Bool × Data) :=
  match pms fuel .makefile d offset (varsettokens ++ [("::".data), (":".data)]) with
  | .error er => .error er
  | .ok r =>
    match r.stopped with
    | none => .ok (cs.push1 (Stmt.emptyDirective r.exp), currule, r.d)
    | some (tok, o2) =>
      if tok ∈ varsettokens then
        let v := rstripE (lstripE r.exp)
        match mkFlatten fuel r.d o2 [] with
        | .error er => .error er
        | .ok (val, d3) =>
          match d3.getloc (some o2) with
          | none => .error .crash
          | some vloc =>
            .ok (cs.push1 (Stmt.setVariable v (lstripStr val) vloc tok none false), false, d3)
      else handleRule fuel r.d cs r.exp tok o2

/-- The directive branch of the statement parser, with the dispatch chain in
source order. -/
def handleDirective (fuel : Nat) (d : Data) (currule : Bool) (cs : CStack) (kw : List Char)
    (o1 : Nat) : Except PErr (CStack × Bool × Data) :=
  if kw = ("endif".data) then
    match ensureend fuel d (some o1) ("Unexpected data after 'endif' directive".data) with
    | .error er => .error er
    | .ok d2 =>
      if cs.frames.isEmpty then raiseAt d2 (some o1) ("unmatched 'endif' directive".data)
      else .ok (cs.popBlock, currule, d2)
  else if kw = ("else".data) then
    if cs.frames.isEmpty then raiseAt d (some o1) ("unmatched 'else' directive".data)
    else
      match findtokenWs d o1 conditionkeywordstokenlist with
      | (none, o2) =>
        match ensureend fuel d (some o2) ("Unexpected data after 'else' directive.".data) with
        | .error er => .error er
        | .ok d2 =>
          match d2.getloc (some o2) with
          | none => .error .crash
          | some _ => .ok (cs.addcondition Cond.elseCond, currule, d2)
      | (some kw2, o2) =>
        match condParse fuel kw2 d o2 with
        | .error er => .error er
        | .ok (c, d2) =>
          match d2.getloc (some o2) with
          | none => .error .crash
          | some _ => .ok (cs.addcondition c, currule, d2)
  else if kw ∈ conditionkeywordstokenlist then
    match condParse fuel kw d o1 with
    | .error er => .error er
    | .ok (c, d2) =>
      match d2.getloc (some 0) with
      | none => .error .crash
      | some loc => .ok ({ cs with frames := ⟨loc, [], c, []⟩ :: cs.frames }, currule, d2)
  else if kw = ("endef".data) then
    raiseAt d (some o1) ("Unmatched endef".data)
  else if kw = ("define".data) then
    match pms fuel .makefile d o1 [] with
    | .error er => .error er
    | .ok r =>
      let d2 : Data := ⟨[], [], r.d.pending, r.d.path⟩
      let d3 := (d2.readline).1
      match defFlatten fuel d3 0 [] with
      | .error er => .error er
      | .ok (value, d4) =>
        match d4.getloc (some 0) with
        | none => .error .crash
        | some vloc =>
          .ok (cs.push1 (Stmt.setVariable r.exp value vloc ("=".data) none false), false, d4)
  else if kw = ("include".data) || kw = ("-include".data) then
    match pms fuel .makefile d o1 [] with
    | .error er => .error er
    | .ok r =>
      .ok (cs.push1 (Stmt.includeStmt r.exp (kw = ("include".data))), false, r.d)
  else if kw = ("vpath".data) then
    match pms fuel .makefile d o1 [] with
    | .error er => .error er
    | .ok r => .ok (cs.push1 (Stmt.vpathStmt r.exp), false, r.d)
  else if kw = ("override".data) then
    match pms fuel .makefile d o1 varsettokens with
    | .error er => .error er
    | .ok r =>
      let v := rstripE (lstripE r.exp)
      match r.stopped with
      | none => raiseAt r.d none ("Malformed override directive, need =".data)
      | some (tok, o2) =>
        match mkFlatten fuel r.d o2 [] with
        | .error er => .error er
        | .ok (val, d3) =>
          match d3.getloc (some o2) with
          | none => .error .crash
          | some vloc =>
            .ok (cs.push1 (Stmt.setVariable v (lstripStr val) vloc tok none true), false, d3)
  else if kw = ("export".data) then
    match pms fuel .makefile d o1 varsettokens with
    | .error er => .error er
    | .ok r =>
      let v := rstripE (lstripE r.exp)
      match r.stopped with
      | none => .ok (cs.push1 (Stmt.exportStmt v false), false, r.d)
      | some (tok, o2) =>
        let cs2 := cs.push1 (Stmt.exportStmt v true)
        match mkFlatten fuel r.d o2 [] with
        | .error er => .error er
        | .ok (val, d3) =>
          match d3.getloc (some o2) with
          | none => .error .crash
          | some vloc =>
            .ok (cs2.push1 (Stmt.setVariable v (lstripStr val) vloc tok none false), false, d3)
  else if kw = ("unexport".data) then
    raiseAt d (some o1) ("unexporting variables is not supported".data)
  else .error .crash

/-- One iteration of the parsestream main loop, on a freshly read logical
line: a TAB line under an open rule is a command; anything else is
whitespace-skipped and dispatched on a possible directive keyword. -/
def handleLine (fuel : Nat) (d : Data) (currule : Bool) (cs : CStack) :
    Except PErr (CStack × Bool × Data) :=
  if d.data.length > 0 && d.data[0]? == some '\t' && currule then
    match pms fuel .command d 1 [] with
    | .error er => .error er
    | .ok r =>
      match r.stopped with
      | some _ => .error .assertFail
      | none => .ok (cs.push1 (Stmt.command r.exp), currule, r.d)
  else
    let offset := d.skipwhitespace 0
    match findtokenWs d offset directivestokenlist with
    | (some kw, o1) => handleDirective fuel d currule cs kw o1
    | (none, o1) => handleNoDirective fuel d currule cs o1

/-- The parsestream loop over the remaining numbered physical lines.  At
EOF the conditional stack must be a single StatementList. -/
def psLoop : Nat → String → List (Nat × List Char) → Bool → CStack → Except PErr (List Stmt)
  | 0, _, _, _, _ => .error .fuel
  | f + 1, path, lines, currule, cs =>
    match lines with
    | [] =>
      match cs.frames with
      | [] => .ok cs.base
      | fr :: _ => .error (.syntaxErr ("Condition never terminated with endif".data) fr.loc)
    | (ln, s) :: rest =>
      let d0 : Data := ⟨[], [], (ln, s) :: rest, path⟩
      match handleLine f (d0.readline).1 currule cs with
      | .error er => .error er
      | .ok (cs2, cr2, d2) => psLoop f path d2.pending cr2 cs2

/-- iterlines CRLF normalization. -/
def normline (s : List Char) : List Char :=
  if s.reverse.take 2 = ['\n', '\r'] then (s.reverse.drop 2).reverse ++ ['\n'] else s

/-- Number the physical lines from 1, normalizing line endings. -/
def numberLines : Nat → List (List Char) → List (Nat × List Char)
  | _, [] => []
  | n, s :: rest => (n, normline s) :: numberLines (n + 1) rest

/-- parsestream on a list of physical lines. -/
def parsestreamRun (fuel : Nat) (lines : List (List Char)) (path : String) :
    Except PErr (List Stmt) :=
  psLoop fuel path (numberLines 1 lines) false ⟨[], []⟩

/-- The property claimed of the result of parsemakesyntax: either no stop
token, or the stop token is a member of the stop set and the returned
offset is the position immediately after that token occurrence in the
buffer. -/
def stopOK (stopon : TL) (r : PMSRes) : Prop :=
  match r.stopped with
  | none => True
  | some (t, off) => t ∈ stopon ∧ t.length ≤ off ∧ slice r.d.data (off - t.length) off = t

/-- A well-formed logical line: at least one anchor, the first at offset 0.
Every Data built by appending lines to an empty one satisfies this. -/
def dataWF (d : Data) : Bool :=
  match d.locs with
  | [] => false
  | (b, _) :: _ => b == 0

/-- The stack invariant of the parsemakesyntax loop: the bottom frame is
the top-level frame whose token list is the stop set plus dollar. -/
def BottomWF (stopon : TL) : List Frame → Prop
  | [] => False
  | [f] => f.parsestate = PState.toplevel ∧ f.tokenlist = stopon ++ [['$']]
  | _ :: rest => BottomWF stopon rest

/-- An alternative that cannot begin at a Latin-letter character. -/
def altNoAlpha : Alt → Bool
  | .lit [] => false
  | .lit (c :: _) => !c.isAlpha
  | _ => true

/-- The shape of the buffer tail while a literal variable reference
$(V:text) is being parsed: alphabetic text, optionally a colon and more
alphabetic text, then the closing parenthesis and the final newline. -/
def goodTail (R : List Char) : Prop :=
  (∃ A B, R = A ++ ':' :: (B ++ [')', '\n']) ∧ (∀ c ∈ A, c.isAlpha = true) ∧
    (∀ c ∈ B, c.isAlpha = true)) ∨
  (∃ B, R = B ++ [')', '\n'] ∧ (∀ c ∈ B, c.isAlpha = true))

lemma findlastGo_isSome (p : Nat × Loc → Bool) (x : Nat × Loc) :
    ∀ l : List (Nat × Loc), (findlastGo p (some x) l).isSome := by
  intro l
  induction l generalizing x with
  | nil => rfl
  | cons a as ih =>
    unfold findlastGo
    split
    · exact ih a
    · rfl

lemma dataWF_anchor {d : Data} (h : dataWF d = true) :
    ∃ l rest, d.locs = (0, l) :: rest := by
  unfold dataWF at h
  rcases hls : d.locs with _ | ⟨⟨b, l⟩, rest⟩
  · rw [hls] at h; simp at h
  · rw [hls] at h
    simp only [beq_iff_eq] at h
    subst h
    exact ⟨l, rest, rfl⟩

lemma getloc_isSome {d : Data} (h : dataWF d = true) (off : Option Nat) :
    (d.getloc off).isSome := by
  obtain ⟨l, rest, hl⟩ := dataWF_anchor h
  unfold Data.getloc
  rcases hfl : findlast (fun bl => bl.1 ≤ clampOff d off) d.locs with _ | ⟨b, l2⟩
  · exfalso
    rw [hl] at hfl
    unfold findlast findlastGo at hfl
    rw [if_pos (by simp)] at hfl
    have hs := findlastGo_isSome (fun bl => bl.1 ≤ clampOff d off) (0, l) rest
    rw [hfl] at hs
    simp at hs
  · rfl

/-- C10: For every non-empty LogicalLine, getloc with offset None behaves
exactly like an offset past the end: getloc(None) equals
getloc(len(buffer)-1), so callers that pass the None offset returned by
parsemakesyntax after full consumption obtain the location of the last byte
of the logical line. -/
theorem claim_C10 (d : Data) (h : d.data ≠ []) :
    d.getloc none = d.getloc (some (d.data.length - 1)) := by
  have hlen : 0 < d.data.length := List.length_pos.mpr h
  have hcl : clampOff d (some (d.data.length - 1)) = clampOff d none := by
    unfold clampOff
    have hx : ¬(d.data.length - 1 ≥ d.data.length) := by omega
    simp [hx]
  unfold Data.getloc
  rw [hcl]

theorem claim_C10_witness :
    (Data.fromstring (("ab\n").data) ⟨"m", 1, 0⟩).getloc none
      = (Data.fromstring (("ab\n").data) ⟨"m", 1, 0⟩).getloc
          (some ((Data.fromstring (("ab\n").data) ⟨"m", 1, 0⟩).data.length - 1)) :=
  claim_C10 _ (by decide)

/-- C7 (code bug): getloc is claimed total for every LogicalLine including
an empty one; on the code, findlast's fallthrough variable is unbound for
an empty anchor list, so getloc on an empty LogicalLine crashes
(UnboundLocalError, modelled as `none`/`PErr.crash`).  The crash is
reachable: input `define FOO\n` with EOF right after leaves the define-body
LogicalLine empty and the unterminated-define error path calls getloc. -/
theorem claim_C7 :
    Data.getloc ⟨[], [], [], "m"⟩ (some 0) = none ∧
    parsestreamRun 60 [("define FOO\n").data] "m" = Except.error PErr.crash :=
  ⟨rfl, rfl⟩

/-- C8 (code bug): in the quoted ifeq form, when the second argument's
closing quote is missing, parsemakesyntax returns offset None, which ifeq
passes into ensureend unchecked; the iterator then calls re.search with
pos=None, raising TypeError rather than the SyntaxError the spec
promises for every parser error. -/
theorem claim_C8 :
    parsestreamRun 60
        [(("ifeq ").data ++ squote :: ("a").data ++ squote :: ' ' :: squote :: ("b\n").data)] "m"
      = Except.error PErr.typeErr ∧
    ∀ (m : List Char) (l : Loc),
      (Except.error PErr.typeErr : Except PErr (List Stmt)) ≠ Except.error (PErr.syntaxErr m l) :=
  ⟨rfl, by intro m l h; exact PErr.noConfusion (Except.error.inj h)⟩

/-- C4: parsestream raises SyntaxError "unmatched 'endif' directive" on an
endif with no open conditional block, "unmatched 'else' directive" on an
else with no open conditional block, and "Condition never terminated with
endif" at EOF while a conditional block is still open (at the open block's
location); a successful parse therefore ended with the conditional stack
reduced to the single bottom StatementList. -/
theorem claim_C4 :
    (∀ (f : Nat) (path : String) (ln : Nat) (rest : List (Nat × List Char)) (currule : Bool)
        (base : List Stmt),
        psLoop (f + 2) path ((ln, ("endif\n").data) :: rest) currule ⟨base, []⟩
          = Except.error (PErr.syntaxErr (("unmatched 'endif' directive").data) ⟨path, ln, 5⟩)) ∧
    (∀ (f : Nat) (path : String) (ln : Nat) (rest : List (Nat × List Char)) (currule : Bool)
        (base : List Stmt),
        psLoop (f + 2) path ((ln, ("else\n").data) :: rest) currule ⟨base, []⟩
          = Except.error (PErr.syntaxErr (("unmatched 'else' directive").data) ⟨path, ln, 4⟩)) ∧
    (∀ (f : Nat) (path : String) (currule : Bool) (base : List Stmt) (fr : CondFrame)
        (frames : List CondFrame),
        psLoop (f + 1) path [] currule ⟨base, fr :: frames⟩
          = Except.error (PErr.syntaxErr (("Condition never terminated with endif").data) fr.loc)) ∧
    parsestreamRun 60 [("ifdef FOO\n").data] "m"
      = Except.error (PErr.syntaxErr (("Condition never terminated with endif").data)
          ⟨"m", 1, 0⟩) :=
  ⟨fun _ _ _ _ _ _ => rfl, fun _ _ _ _ _ _ => rfl, fun _ _ _ _ _ _ => rfl, rfl⟩

/-- C9 counterexample: with the empty TokenList, itermakefilechars on the
buffer "ab\n" emits the chunk "ab" — not the whole remaining buffer — since
the newline meta-token still terminates the chunk; so the claim that all
four iterators emit the whole remaining buffer as one chunk is false. -/
theorem claim_C9_cex :
    mkAll 30 (Data.fromstring (("ab\n").data) ⟨"m", 1, 0⟩) 0 []
      = Except.ok ([((("ab").data), none)], Data.fromstring (("ab\n").data) ⟨"m", 1, 0⟩) ∧
    ("ab").data ≠ (Data.fromstring (("ab\n").data) ⟨"m", 1, 0⟩).data :=
  ⟨rfl, by decide⟩

/-- C9 (amended): only iterdata short-circuits on the empty TokenList,
yielding the entire buffer (regardless of the start offset) as a single
tokenless chunk; the makefile, command, and define-body iterators still
process their meta-tokens (newline termination, continuations) and emit
tokenless chunks that need not cover the buffer. -/
theorem claim_C9 :
    (∀ (d : Data) (off fuel : Nat),
        dataAll (fuel + 1) d off [] = Except.ok ([(d.data, none)], d)) ∧
    mkAll 30 (Data.fromstring (("ab\n").data) ⟨"m", 1, 0⟩) 0 []
      = Except.ok ([((("ab").data), none)], Data.fromstring (("ab\n").data) ⟨"m", 1, 0⟩) ∧
    cmdAll 30 ⟨("x\\\n").data, [(0, ⟨"m", 1, 0⟩)], [(2, ("\tb\n").data)], "m"⟩ 0 []
      = Except.ok ([((("x\\\n").data), none), ((("b").data), none)],
          ⟨("x\\\n").data ++ ("\tb\n").data, [(0, ⟨"m", 1, 0⟩), (3, ⟨"m", 2, 0⟩)], [], "m"⟩) ∧
    defAll 30 ⟨("x\n").data, [(0, ⟨"m", 2, 0⟩)], [(3, ("endef\n").data)], "m"⟩ 0 []
      = Except.ok ([((("x").data), none)],
          ⟨("x\n").data ++ ("endef\n").data, [(0, ⟨"m", 2, 0⟩), (2, ⟨"m", 3, 0⟩)], [], "m"⟩) :=
  ⟨fun _ _ _ => rfl, rfl, rfl, rfl⟩

/-- C2 counterexample: a run of two backslash-newline continuations
collapses to two spaces, not one: each continuation contributes its own
space, so "x \LF   \LF  y" flattens to "x  y", not "x y". -/
theorem claim_C2_cex :
    (mkFlatten 50 ⟨("x \\\n").data, [(0, ⟨"m", 1, 0⟩)],
        [(2, ("   \\\n").data), (3, ("  y\n").data)], "m"⟩ 0 []).map (fun p => p.1)
      = Except.ok (("x  y").data) ∧
    (("x  y").data : List Char) ≠ ("x y").data :=
  ⟨rfl, by decide⟩

/-- C2 (amended): in the makefile regime, every backslash-newline
continuation right-strips the pending chunk, emits it followed by a single
space, pulls the next physical line and skips its leading whitespace — so a
run of n continuations collapses to n spaces (one per continuation), not
necessarily one; in the command regime, the backslash and newline are
preserved byte-for-byte in the emitted chunk, and one following TAB, if
present, is skipped as recipe indentation. -/
theorem claim_C2 :
    (∀ (fuel : Nat) (d : Data) (offset : Nat) (tl : TL) (start e : Nat),
        offset < d.data.length →
        research (mkAlts tl) d.data offset = some (['\\', '\n'], start, e) →
        mkStep fuel d offset tl
          = Except.ok (IStep.cont (rstripStr (slice d.data offset start) ++ [' '])
              (skipwsAux ((d.readline).1).data e), (d.readline).1)) ∧
    (∀ (d : Data) (offset : Nat) (tl : TL) (start e : Nat),
        offset < d.data.length →
        research (contAlts tl) d.data offset = some (['\\', '\n'], start, e) →
        cmdStep d offset tl
          = Except.ok (IStep.cont (slice d.data offset e)
              (if ((d.readline).1).data[e]? = some '\t' then e + 1 else e), (d.readline).1)) ∧
    (mkFlatten 50 ⟨("x \\\n").data, [(0, ⟨"m", 1, 0⟩)],
        [(2, ("   \\\n").data), (3, ("  y\n").data)], "m"⟩ 0 []).map (fun p => p.1)
      = Except.ok (("x  y").data) := by
  refine ⟨?_, ?_, rfl⟩
  · intro fuel d offset tl start e hlt hre
    unfold mkStep
    rw [if_pos hlt, hre]
    dsimp only
    rw [if_neg (by decide : ¬((['\\', '\n'] : List Char) = ['\n'])),
      if_neg (by decide : ¬((['\\', '\n'] : List Char) = ['#'])),
      if_neg (by decide : ¬((['\\', '\n'] : List Char) = ['\\', '\\', '#'])),
      if_pos (rfl : (['\\', '\n'] : List Char) = ['\\', '\n'])]
  · intro d offset tl start e hlt hre
    unfold cmdStep
    rw [if_pos hlt, hre]
    dsimp only
    rw [if_neg (by decide : ¬((['\\', '\n'] : List Char) = ['\n'])),
      if_pos (rfl : (['\\', '\n'] : List Char) = ['\\', '\n'])]

theorem claim_C2_witness :
    mkStep 5 ⟨("x \\\n").data, [(0, ⟨"m", 1, 0⟩)], [(2, (" y\n").data)], "m"⟩ 0 []
      = Except.ok (IStep.cont (("x ").data) 5,
          ⟨("x \\\n").data ++ (" y\n").data, [(0, ⟨"m", 1, 0⟩), (4, ⟨"m", 2, 0⟩)], [], "m"⟩) ∧
    cmdStep ⟨("x\\\n").data, [(0, ⟨"m", 1, 0⟩)], [(2, ("\tb\n").data)], "m"⟩ 0 []
      = Except.ok (IStep.cont (("x\\\n").data) 4,
          ⟨("x\\\n").data ++ ("\tb\n").data, [(0, ⟨"m", 1, 0⟩), (3, ⟨"m", 2, 0⟩)], [], "m"⟩) :=
  ⟨claim_C2.1 5 _ 0 [] 2 4 (by decide) rfl, claim_C2.2.1 _ 0 [] 1 3 (by decide) rfl⟩

/-- C3 counterexample: the define body is emitted up to (but not including)
the newline that precedes the endef line, so the example value is
"line1\nline2", not "line1\nline2\n" as claimed. -/
theorem claim_C3_cex :
    parsestreamRun 60
        [("define FOO\n").data, ("line1\n").data, ("line2\n").data, ("endef\n").data] "m"
      = Except.ok [Stmt.setVariable [ExpNode.lit (("FOO").data)] (("line1\nline2").data)
          ⟨"m", 2, 0⟩ (("=").data) none false] ∧
    (("line1\nline2").data : List Char) ≠ ("line1\nline2\n").data :=
  ⟨rfl, by decide⟩

/-- C3 (amended): parsing a `define NAME` directive followed by body lines
and a matching `endef` appends a SetVariable with name NAME and op '='
whose value is the flattened define body emitted up to (but not including)
the newline preceding the physical line carrying the matching endef; in
particular for input `define FOO\nline1\nline2\nendef\n` the value is
"line1\nline2". -/
theorem claim_C3 :
    (∀ (d : Data) (offset : Nat) (tl : TL) (dc : Int) (so start e : Nat),
        offset < d.data.length →
        research (contAlts tl) d.data offset = some (['\n'], start, e) →
        e = d.data.length →
        dc + checkfortoken ((d.readline).1) e = 0 →
        defStep d offset tl dc so
          = Except.ok (IStep.finish (slice d.data offset start) true, (d.readline).1, 0)) ∧
    parsestreamRun 60
        [("define FOO\n").data, ("line1\n").data, ("line2\n").data, ("endef\n").data] "m"
      = Except.ok [Stmt.setVariable [ExpNode.lit (("FOO").data)] (("line1\nline2").data)
          ⟨"m", 2, 0⟩ (("=").data) none false] := by
  refine ⟨?_, rfl⟩
  intro d offset tl dc so start e hlt hre he hdc
  unfold defStep
  rw [if_pos hlt, hre]
  dsimp only
  rw [if_neg (by decide : ¬((['\n'] : List Char) = ['\\', '\n'])),
    if_pos (rfl : (['\n'] : List Char) = ['\n']), if_pos he, if_pos hdc, hdc]

lemma readline_WF {d : Data} (h : dataWF d = true) : dataWF ((d.readline).1) = true := by
  obtain ⟨l, rest, hl⟩ := dataWF_anchor h
  unfold Data.readline
  rcases hp : d.pending with _ | ⟨⟨ln, s⟩, p⟩
  · exact h
  · dsimp only
    unfold dataWF Data.append
    simp [hl]

lemma drainMk_WF : ∀ (f : Nat) {d : Data} {off : Nat} {d2 : Data}, dataWF d = true →
    drainMk f d off = Except.ok d2 → dataWF d2 = true := by
  intro f
  induction f with
  | zero => intro d off d2 _ h; exact absurd h (by simp [drainMk])
  | succ f ih =>
    intro d off d2 hWF h
    unfold drainMk at h
    by_cases hlt : off < d.data.length
    · rw [if_pos hlt] at h
      rcases hre : research (mkAlts []) d.data off with _ | ⟨txt, start, e⟩
      · rw [hre] at h
        cases h
        exact hWF
      · rw [hre] at h
        dsimp only at h
        split_ifs at h <;>
          first
          | (cases h; exact hWF)
          | exact ih (readline_WF hWF) h
          | exact ih hWF h
          | cases h
    · rw [if_neg hlt] at h
      cases h
      exact hWF

lemma mkStep_WF : ∀ (f : Nat) {d : Data} {off : Nat} {tl : TL} {st : IStep} {d2 : Data},
    dataWF d = true → mkStep f d off tl = Except.ok (st, d2) → dataWF d2 = true := by
  intro f d off tl st d2 hWF h
  unfold mkStep at h
  by_cases hlt : off < d.data.length
  · rw [if_pos hlt] at h
    rcases hre : research (mkAlts tl) d.data off with _ | ⟨txt, start, e⟩
    · rw [hre] at h; cases h; exact hWF
    · rw [hre] at h
      dsimp only at h
      split_ifs at h <;>
        first
        | (cases h; exact hWF)
        | (cases h; exact readline_WF hWF)
        | cases h
        | (rcases hdm : drainMk f d e with er | d3 <;> rw [hdm] at h <;>
            first
            | (cases h; exact drainMk_WF f hWF hdm)
            | cases h)
  · rw [if_neg hlt] at h
    cases h
    exact hWF

lemma cmdStep_WF : ∀ {d : Data} {off : Nat} {tl : TL} {st : IStep} {d2 : Data},
    dataWF d = true → cmdStep d off tl = Except.ok (st, d2) → dataWF d2 = true := by
  intro d off tl st d2 hWF h
  unfold cmdStep at h
  by_cases hlt : off < d.data.length
  · rw [if_pos hlt] at h
    rcases hre : research (contAlts tl) d.data off with _ | ⟨txt, start, e⟩
    · rw [hre] at h; cases h; exact hWF
    · rw [hre] at h
      dsimp only at h
      split_ifs at h <;>
        first
        | (cases h; exact hWF)
        | (cases h; exact readline_WF hWF)
        | cases h
  · rw [if_neg hlt] at h
    cases h
    exact hWF

lemma dataStep_WF : ∀ {d : Data} {off : Nat} {tl : TL} {st : IStep} {d2 : Data},
    dataWF d = true → dataStep d off tl = Except.ok (st, d2) → dataWF d2 = true := by
  intro d off tl st d2 hWF h
  unfold dataStep at h
  split_ifs at h
  · cases h; exact hWF
  · rcases hre : research (simpleAlts tl) d.data off with _ | ⟨txt, start, e⟩
    · rw [hre] at h; cases h; exact hWF
    · rw [hre] at h; cases h; exact hWF
  · cases h; exact hWF

lemma defStep_WF : ∀ {d : Data} {off : Nat} {tl : TL} {dc : Int} {so : Nat} {st : IStep}
    {d2 : Data} {dc2 : Int}, dataWF d = true →
    defStep d off tl dc so = Except.ok (st, d2, dc2) → dataWF d2 = true := by
  intro d off tl dc so st d2 dc2 hWF h
  unfold defStep at h
  by_cases hlt : off < d.data.length
  · rw [if_pos hlt] at h
    rcases hre : research (contAlts tl) d.data off with _ | ⟨txt, start, e⟩
    · rw [hre] at h
      rcases hg : d.getloc (some so) with _ | l <;> rw [hg] at h <;> cases h
    · rw [hre] at h
      dsimp only at h
      split_ifs at h <;>
        first
        | (cases h; exact hWF)
        | (cases h; exact readline_WF hWF)
        | cases h
  · rw [if_neg hlt] at h
    rcases hg : d.getloc (some so) with _ | l <;> rw [hg] at h <;> cases h

lemma mkNext_WF : ∀ (f : Nat) {d : Data} {off : Nat} {tl : TL} {chunk : List Char}
    {r : NextRes} {d2 : Data}, dataWF d = true →
    mkNext f d off tl = Except.ok (chunk, r, d2) → dataWF d2 = true := by
  intro f
  induction f with
  | zero => intro _ _ _ _ _ _ _ h; exact absurd h (by simp [mkNext])
  | succ f ih =>
    intro d off tl chunk r d2 hWF h
    unfold mkNext at h
    rcases hst : mkStep f d off tl with er | ⟨st, d3⟩
    · rw [hst] at h; cases h
    · rw [hst] at h
      have hWF3 := mkStep_WF f hWF hst
      cases st with
      | finish c y => cases h; exact hWF3
      | tok c t toff aoff => cases h; exact hWF3
      | cont c noff =>
        dsimp only at h
        rcases hnx : mkNext f d3 noff tl with er | ⟨rest2, r2, d4⟩
        · rw [hnx] at h; cases h
        · rw [hnx] at h
          have hWF4 := ih hWF3 hnx
          cases r2 <;> (cases h; exact hWF4)

lemma cmdNext_WF : ∀ (f : Nat) {d : Data} {off : Nat} {tl : TL} {chunk : List Char}
    {r : NextRes} {d2 : Data}, dataWF d = true →
    cmdNext f d off tl = Except.ok (chunk, r, d2) → dataWF d2 = true := by
  intro f
  induction f with
  | zero => intro _ _ _ _ _ _ _ h; exact absurd h (by simp [cmdNext])
  | succ f ih =>
    intro d off tl chunk r d2 hWF h
    unfold cmdNext at h
    rcases hst : cmdStep d off tl with er | ⟨st, d3⟩
    · rw [hst] at h; cases h
    · rw [hst] at h
      have hWF3 := cmdStep_WF hWF hst
      cases st with
      | finish c y => cases h; exact hWF3
      | tok c t toff aoff => cases h; exact hWF3
      | cont c noff =>
        dsimp only at h
        rcases hnx : cmdNext f d3 noff tl with er | ⟨rest2, r2, d4⟩
        · rw [hnx] at h; cases h
        · rw [hnx] at h
          have hWF4 := ih hWF3 hnx
          cases r2 <;> (cases h; exact hWF4)

lemma dataNext_WF : ∀ (f : Nat) {d : Data} {off : Nat} {tl : TL} {chunk : List Char}
    {r : NextRes} {d2 : Data}, dataWF d = true →
    dataNext f d off tl = Except.ok (chunk, r, d2) → dataWF d2 = true := by
  intro f d off tl chunk r d2 hWF h
  cases f with
  | zero => exact absurd h (by simp [dataNext])
  | succ f =>
    unfold dataNext at h
    try dsimp only at h
    rcases hst : dataStep d off tl with er | ⟨st, d3⟩
    · rw [hst] at h; cases h
    · rw [hst] at h
      have hWF3 := dataStep_WF hWF hst
      cases st with
      | finish c y => cases h; exact hWF3
      | tok c t toff aoff => cases h; exact hWF3
      | cont c noff => dsimp only at h; cases h

lemma defLoop_WF : ∀ (f : Nat) {d : Data} {off : Nat} {tl : TL} {dc : Int} {so : Nat}
    {chunk : List Char} {r : NextRes} {d2 : Data} {dc2 : Int}, dataWF d = true →
    defLoop f d off tl dc so = Except.ok (chunk, r, d2, dc2) → dataWF d2 = true := by
  intro f
  induction f with
  | zero => intro _ _ _ _ _ _ _ _ _ _ h; exact absurd h (by simp [defLoop])
  | succ f ih =>
    intro d off tl dc so chunk r d2 dc2 hWF h
    unfold defLoop at h
    rcases hst : defStep d off tl dc so with er | ⟨st, d3, dc3⟩
    · rw [hst] at h; cases h
    · rw [hst] at h
      have hWF3 := defStep_WF hWF hst
      cases st with
      | finish c y => cases h; exact hWF3
      | tok c t toff aoff => cases h; exact hWF3
      | cont c noff =>
        dsimp only at h
        rcases hnx : defLoop f d3 noff tl dc3 so with er | ⟨rest2, r2, d4, dc4⟩
        · rw [hnx] at h; cases h
        · rw [hnx] at h
          have hWF4 := ih hWF3 hnx
          cases r2 <;> (cases h; exact hWF4)

lemma defNext_WF : ∀ (f : Nat) {d : Data} {off : Nat} {tl : TL} {chunk : List Char}
    {r : NextRes} {d2 : Data}, dataWF d = true →
    defNext f d off tl = Except.ok (chunk, r, d2) → dataWF d2 = true := by
  intro f d off tl chunk r d2 hWF h
  unfold defNext at h
  dsimp only at h
  split_ifs at h
  · cases h; exact hWF
  · rcases hdl : defLoop f d off tl (1 + checkfortoken d off) off with er | ⟨c2, r2, d3, dc3⟩
    · rw [hdl] at h; cases h
    · rw [hdl] at h
      dsimp only at h
      cases h
      exact defLoop_WF f hWF hdl

lemma iterNext_WF (ik : IterKind) (f : Nat) {d : Data} {off : Nat} {tl : TL}
    {chunk : List Char} {r : NextRes} {d2 : Data} (hWF : dataWF d = true)
    (h : iterNext ik f d off tl = Except.ok (chunk, r, d2)) : dataWF d2 = true := by
  cases ik with
  | dataIter => exact dataNext_WF f hWF h
  | makefile => exact mkNext_WF f hWF h
  | command => exact cmdNext_WF f hWF h
  | defineBody => exact defNext_WF f hWF h

/-- C5: whenever the char iterator is exhausted (end of the logical line
with no more input) while the parse stack still holds an open variable or
function frame (depth greater than one), parsemakesyntax raises
SyntaxError "Unterminated function call" carrying a SourceLoc (resolved at
the loop offset variable, which is None after a tokenless yield). -/
theorem claim_C5 (fuel : Nat) (ik : IterKind) (d : Data) (scan : Nat) (top f2 : Frame)
    (rest : List Frame) (offvar : Option Nat) (warns : List Loc) (chunk : List Char) (y : Bool)
    (d2 : Data) (hWF : dataWF d = true)
    (hit : iterNext ik (fuel + 1) d scan top.tokenlist
      = Except.ok (chunk, NextRes.done y, d2)) :
    plLoop (fuel + 1) ik d scan (top :: f2 :: rest) offvar warns
      = Except.error (PErr.syntaxErr untermMsg
          ((d2.getloc (if y then none else offvar)).getD default)) := by
  have hWF2 : dataWF d2 = true := iterNext_WF ik (fuel + 1) hWF hit
  obtain ⟨l, hl⟩ := Option.isSome_iff_exists.mp
    (getloc_isSome hWF2 (if y then none else offvar))
  unfold plLoop
  dsimp only
  rw [hit]
  dsimp only
  rw [hl]
  simp

theorem claim_C5_witness :
    plLoop 6 IterKind.makefile (Data.fromstring (("$(foo\n").data) ⟨"m", 1, 0⟩) 2
        [{ parsestate := PState.varname, expansion := [],
           tokenlist := [[':'], ['('], [')'], ['$']],
           openbrace := some '(', closebrace := some ')', vloc := ⟨"m", 1, 0⟩ },
         { parsestate := PState.toplevel, expansion := [], tokenlist := [['$']],
           openbrace := none, closebrace := none }] (some 2) []
      = Except.error (PErr.syntaxErr untermMsg
          (((Data.fromstring (("$(foo\n").data) ⟨"m", 1, 0⟩).getloc
              (if true then none else some 2)).getD default)) :=
  claim_C5 5 IterKind.makefile (Data.fromstring (("$(foo\n").data) ⟨"m", 1, 0⟩) 2
    { parsestate := PState.varname, expansion := [],
      tokenlist := [[':'], ['('], [')'], ['$']],
      openbrace := some '(', closebrace := some ')', vloc := ⟨"m", 1, 0⟩ }
    { parsestate := PState.toplevel, expansion := [], tokenlist := [['$']],
      openbrace := none, closebrace := none }
    [] (some 2) [] (("foo").data) true (Data.fromstring (("$(foo\n").data) ⟨"m", 1, 0⟩)
    (by decide) rfl

theorem claim_C3_witness :
    defStep ⟨("x\n").data, [(0, ⟨"m", 2, 0⟩)], [(3, ("endef\n").data)], "m"⟩ 0 [] 1 0
      = Except.ok (IStep.finish (("x").data) true,
          ⟨("x\n").data ++ ("endef\n").data, [(0, ⟨"m", 2, 0⟩), (2, ⟨"m", 3, 0⟩)], [], "m"⟩, 0) :=
  claim_C3.1 _ 0 [] 1 0 1 2 (by decide) rfl rfl (by decide)

lemma alpha_not_space {c : Char} (h : c.isAlpha = true) : pySpace c = false := by
  unfold pySpace
  simp only [Bool.or_eq_false_iff, beq_eq_false_iff_ne]
  refine ⟨⟨⟨⟨⟨?_, ?_⟩, ?_⟩, ?_⟩, ?_⟩, ?_⟩ <;> (rintro rfl; exact absurd h (by decide))

lemma alpha_ne {c x : Char} (h : c.isAlpha = true) (hx : x.isAlpha = false) : c ≠ x := by
  rintro rfl
  rw [h] at hx
  cases hx

lemma matchAltLen_alpha_none {a : Alt} (ha : altNoAlpha a = true) {c : Char}
    (hc : c.isAlpha = true) (s : List Char) : matchAltLen (c :: s) a = none := by
  cases a with
  | lit t =>
    cases t with
    | nil => simp [altNoAlpha] at ha
    | cons c0 t2 =>
      unfold altNoAlpha at ha
      simp only [Bool.not_eq_eq_eq_not, Bool.not_true] at ha
      unfold matchAltLen
      dsimp only
      rw [if_neg]
      intro hp
      simp only [List.isPrefixOf, Bool.and_eq_true, beq_iff_eq] at hp
      exact alpha_ne hc ha hp.1.symm
  | bsAny =>
    cases s with
    | nil => rfl
    | cons c1 s2 =>
      unfold matchAltLen
      dsimp only
      rw [if_neg (alpha_ne hc (by decide))]
  | bsWsBsNl =>
    unfold matchAltLen
    dsimp only
    rw [if_neg (alpha_ne hc (by decide))]

lemma firstMatchLen_alpha_none {alts : List Alt} (halts : ∀ a ∈ alts, altNoAlpha a = true)
    {c : Char} (hc : c.isAlpha = true) (s : List Char) :
    firstMatchLen alts (c :: s) = none :=
  List.findSome?_eq_none_iff.mpr fun a ha => matchAltLen_alpha_none (halts a ha) hc s

lemma scanMatch_alpha_skip {alts : List Alt} (halts : ∀ a ∈ alts, altNoAlpha a = true)
    (mid : List Char) (rest : List Char) (hmid : ∀ c ∈ mid, c.isAlpha = true) :
    scanMatch alts (mid ++ rest)
      = (scanMatch alts rest).map (fun p => (p.1 + mid.length, p.2)) := by
  induction mid with
  | nil =>
    simp only [List.nil_append, List.length_nil]
    cases scanMatch alts rest <;> simp
  | cons c cs ih =>
    rw [List.cons_append]
    conv_lhs => unfold scanMatch
    rw [firstMatchLen_alpha_none halts (hmid c (List.mem_cons_self c cs)) (cs ++ rest)]
    dsimp only
    rw [ih (fun x hx => hmid x (List.mem_cons_of_mem c hx))]
    cases hsm : scanMatch alts rest <;> simp [Nat.add_assoc]

lemma scanMatch_cons_some {alts : List Alt} {c : Char} {s : List Char} {k : Nat}
    (h : firstMatchLen alts (c :: s) = some k) : scanMatch alts (c :: s) = some (0, k) := by
  unfold scanMatch
  rw [h]

lemma goodTail_head {R : List Char} (h : goodTail R) :
    ∃ c R2, R = c :: R2 ∧ pySpace c = false := by
  rcases h with ⟨A, B, hR, hA, _hB⟩ | ⟨B, hR, hB⟩
  · cases A with
    | nil => exact ⟨':', _, by simpa using hR, by decide⟩
    | cons a A2 =>
      exact ⟨a, _, by simpa using hR, alpha_not_space (hA a (List.mem_cons_self a A2))⟩
  · cases B with
    | nil => exact ⟨')', _, by simpa using hR, by decide⟩
    | cons b B2 =>
      exact ⟨b, _, by simpa using hR, alpha_not_space (hB b (List.mem_cons_self b B2))⟩

lemma goodTail_strip {c : Char} {R2 : List Char} (h : goodTail (c :: R2))
    (hc : c.isAlpha = true) : goodTail R2 := by
  rcases h with ⟨A, B, hR, hA, hB⟩ | ⟨B, hR, hB⟩
  · cases A with
    | nil =>
      simp only [List.nil_append, List.cons.injEq] at hR
      exact absurd hc (by rw [hR.1]; decide)
    | cons a A2 =>
      simp only [List.cons_append, List.cons.injEq] at hR
      exact Or.inl ⟨A2, B, hR.2, fun x hx => hA x (List.mem_cons_of_mem a hx), hB⟩
  · cases B with
    | nil =>
      simp only [List.nil_append, List.cons.injEq] at hR
      exact absurd hc (by rw [hR.1]; decide)
    | cons b B2 =>
      simp only [List.cons_append, List.cons.injEq] at hR
      exact Or.inr ⟨B2, hR.2, fun x hx => hB x (List.mem_cons_of_mem b hx)⟩

lemma prefix_goodTail : ∀ (t R : List Char), (∀ c ∈ t, c.isAlpha = true) → goodTail R →
    t.isPrefixOf R = true → ∃ c R2, R.drop t.length = c :: R2 ∧ pySpace c = false := by
  intro t
  induction t with
  | nil =>
    intro R _ hg _
    obtain ⟨c, R2, hR, hc⟩ := goodTail_head hg
    exact ⟨c, R2, by simpa using hR, hc⟩
  | cons c t2 ih =>
    intro R ht hg hp
    obtain ⟨r, R2, hR, _⟩ := goodTail_head hg
    subst hR
    simp only [List.isPrefixOf, Bool.and_eq_true, beq_iff_eq] at hp
    obtain ⟨rfl, hp2⟩ := hp
    have hca : c.isAlpha = true := ht c (List.mem_cons_self c t2)
    have hg2 : goodTail R2 := goodTail_strip hg hca
    obtain ⟨c2, R3, hdrop, hc2⟩ :=
      ih R2 (fun x hx => ht x (List.mem_cons_of_mem c hx)) hg2 hp2
    exact ⟨c2, R3, by simpa using hdrop, hc2⟩

lemma ftw_none_of_goodTail {V text : List Char} (hV : ∀ c ∈ V, c.isAlpha = true)
    (ht : ∀ c ∈ text, c.isAlpha = true) {l0 : Loc} {tlf : TL}
    (htla : ∀ t ∈ tlf, ∀ c ∈ t, c.isAlpha = true) :
    findtokenWs (Data.fromstring ('$' :: '(' :: (V ++ ':' :: (text ++ [')', '\n']))) l0)
      2 tlf = (none, 2) := by
  unfold findtokenWs
  rw [List.find?_eq_none.mpr ?_]
  · intro t htm hpred
    simp only [Bool.and_eq_true] at hpred
    obtain ⟨hp, hw⟩ := hpred
    have hgood : goodTail (V ++ ':' :: (text ++ [')', '\n'])) := Or.inl ⟨V, text, rfl, hV, ht⟩
    have hp2 : t.isPrefixOf (V ++ ':' :: (text ++ [')', '\n'])) = true := hp
    obtain ⟨c, R3, hdrop, hcns⟩ := prefix_goodTail t _ (htla t htm) hgood hp2
    have hidx : (Data.fromstring ('$' :: '(' :: (V ++ ':' :: (text ++ [')', '\n'])))
        l0).data[2 + t.length]? = some c := by
      rw [← List.head?_drop]
      rw [Nat.add_comm 2 t.length]
      show ((V ++ ':' :: (text ++ [')', '\n'])).drop t.length).head? = some c
      rw [hdrop]
      rfl
    unfold wsOrEnd at hw
    rw [hidx] at hw
    dsimp only at hw
    rw [hcns] at hw
    cases hw

lemma getloc_fromstring_zero (s : List Char) (l0 : Loc) (hs : 0 < s.length) :
    (Data.fromstring s l0).getloc (some 0) = some l0 := by
  have hne : s ≠ [] := by intro h; subst h; simp at hs
  unfold Data.getloc clampOff findlast Data.fromstring Data.append
  simp [hne, findlastGo, Loc.advance, slice]

lemma mkStep_plain_tok (f : Nat) (d : Data) (off : Nat) (tl : TL) (t : List Char) (s e : Nat)
    (hlt : off < d.data.length)
    (hre : research (mkAlts tl) d.data off = some (t, s, e))
    (hh : t.head? ≠ some '\\') (hn : t ≠ ['\n']) (hsh : t ≠ ['#']) :
    mkStep f d off tl = Except.ok (IStep.tok (slice d.data off s) t s e, d) := by
  have hbb : t ≠ ['\\', '\\', '#'] := by rintro rfl; exact hh rfl
  have hbn : t ≠ ['\\', '\n'] := by rintro rfl; exact hh rfl
  have hbsh : t ≠ ['\\', '#'] := by rintro rfl; exact hh rfl
  have hhb : (t.head? == some '\\') = false := beq_eq_false_iff_ne.mpr hh
  unfold mkStep
  rw [if_pos hlt, hre]
  dsimp only
  rw [if_neg hn, if_neg hsh, if_neg hbb, if_neg hbn,
    if_neg (by rw [hhb]; exact Bool.false_ne_true), if_neg hbsh,
    if_neg (by rw [hhb]; exact Bool.false_ne_true)]

lemma mkStep_nl_finish (f : Nat) (d : Data) (off : Nat) (tl : TL) (s e : Nat)
    (hlt : off < d.data.length)
    (hre : research (mkAlts tl) d.data off = some (['\n'], s, e))
    (he : e = d.data.length) :
    mkStep f d off tl = Except.ok (IStep.finish (slice d.data off s) true, d) := by
  unfold mkStep
  rw [if_pos hlt, hre]
  dsimp only
  rw [if_pos (rfl : (['\n'] : List Char) = ['\n']), if_pos he]

lemma mkNext_of_tok {f : Nat} {d : Data} {off : Nat} {tl : TL} {c t : List Char} {s e : Nat}
    {d2 : Data} (hst : mkStep f d off tl = Except.ok (IStep.tok c t s e, d2)) :
    mkNext (f + 1) d off tl = Except.ok (c, NextRes.tok t s e, d2) := by
  unfold mkNext
  rw [hst]

lemma mkNext_of_finish {f : Nat} {d : Data} {off : Nat} {tl : TL} {c : List Char} {y : Bool}
    {d2 : Data} (hst : mkStep f d off tl = Except.ok (IStep.finish c y, d2)) :
    mkNext (f + 1) d off tl = Except.ok (c, NextRes.done y, d2) := by
  unfold mkNext
  rw [hst]

lemma dispatch_dollar_varname {d : Data} {toff aoff : Nat} {top : Frame} {rest : List Frame}
    {warns : List Loc} {lc : Loc} {o2 : Nat}
    (hlen : ¬(d.data.length = aoff))
    (hloc : d.getloc (some toff) = some lc)
    (hc : d.data[aoff]? = some '(')
    (hftw : findtokenWs d (aoff + 1) functiontokenlist = (none, o2)) :
    dispatch d ['$'] toff aoff top rest warns
      = Except.ok (DOut.next
          ({ parsestate := PState.varname, expansion := [],
             tokenlist := [[':'], ['('], [')'], ['$']],
             openbrace := some '(', closebrace := some ')', vloc := lc } :: top :: rest)
          o2 warns) := by
  unfold dispatch
  rw [if_pos (rfl : (['$'] : List Char) = ['$']), if_neg hlen, hloc, hc]
  dsimp only
  rw [if_neg (by decide : ¬('(' = '$')), if_pos (by decide)]
  rw [hftw]
  rfl

lemma dispatch_varname_colon {d : Data} {toff aoff : Nat} {top : Frame} {rest : List Frame}
    {warns : List Loc}
    (hstate : top.parsestate = PState.varname)
    (hob : top.openbrace = some '(') (hcb : top.closebrace = some ')') :
    dispatch d [':'] toff aoff top rest warns
      = Except.ok (DOut.next
          ({ top with
              varname := top.expansion, parsestate := PState.substfrom,
              expansion := [], tokenlist := [['='], ['('], [')'], ['$']] } :: rest)
          aoff warns) := by
  unfold dispatch
  rw [if_neg (by decide : ¬(([':'] : List Char) = ['$'])), if_neg (by decide), hstate]
  rw [if_neg (by decide : ¬(PState.varname = PState.parenmatch)),
    if_neg (by decide : ¬(PState.varname = PState.toplevel)),
    if_neg (by decide : ¬(PState.varname = PState.functionCall)),
    if_pos (rfl : PState.varname = PState.varname),
    if_pos (rfl : ([':'] : List Char) = [':']), hob, hcb]

lemma dispatch_substfrom_close {d : Data} {toff aoff : Nat} {top p : Frame}
    {rest2 : List Frame} {warns : List Loc}
    (hstate : top.parsestate = PState.substfrom) :
    dispatch d [')'] toff aoff top (p :: rest2) warns
      = Except.ok (DOut.next
          ({ p with expansion := p.expansion
              ++ [ExpNode.varref top.vloc
                    (concatE (appendStr top.varname [':']) top.expansion)] } :: rest2)
          aoff (warns ++ [top.vloc])) := by
  unfold dispatch
  rw [if_neg (by decide : ¬(([')'] : List Char) = ['$'])), if_neg (by decide), hstate]
  rw [if_neg (by decide : ¬(PState.substfrom = PState.parenmatch)),
    if_neg (by decide : ¬(PState.substfrom = PState.toplevel)),
    if_neg (by decide : ¬(PState.substfrom = PState.functionCall)),
    if_neg (by decide : ¬(PState.substfrom = PState.varname)),
    if_pos (rfl : PState.substfrom = PState.substfrom),
    if_neg (by decide : ¬(([')'] : List Char) = ['='])), if_pos (by decide)]

lemma varname_combine (V text : List Char) :
    concatE (appendStr (appendStr [] V) [':']) (appendStr [] text)
      = [ExpNode.lit (V ++ ':' :: text)] := by
  cases V with
  | nil =>
    cases text with
    | nil => rfl
    | cons t ts => simp [appendStr, concatE]
  | cons v vs =>
    cases text with
    | nil => simp [appendStr, concatE]
    | cons t ts => simp [appendStr, concatE, List.append_assoc]

/-- C6: for every variable reference of the literal form $(V:text) with
alphabetic V and text (so no '=' occurs before the closing brace), parsing
succeeds: exactly one warning is logged at the variable's source location
and a plain VariableRef is emitted whose name is the concatenation of V,
':' and text. -/
theorem claim_C6 (V text : List Char) (l0 : Loc)
    (hV : ∀ c ∈ V, c.isAlpha = true) (ht : ∀ c ∈ text, c.isAlpha = true) :
    pms 10 IterKind.makefile
        (Data.fromstring ('$' :: '(' :: (V ++ ':' :: (text ++ [')', '\n']))) l0) 0 []
      = Except.ok ⟨[ExpNode.varref l0 [ExpNode.lit (V ++ ':' :: text)]], none,
          Data.fromstring ('$' :: '(' :: (V ++ ':' :: (text ++ [')', '\n']))) l0, [l0]⟩ := by
  set D := Data.fromstring ('$' :: '(' :: (V ++ ':' :: (text ++ [')', '\n']))) l0 with hDdef
  have hdata : D.data = '$' :: '(' :: (V ++ ':' :: (text ++ [')', '\n'])) := rfl
  have hlen : D.data.length = V.length + text.length + 5 := by
    rw [hdata]; simp; omega
  have hdrop2 : D.data.drop 2 = V ++ ':' :: (text ++ [')', '\n']) := rfl
  have hdropColon : D.data.drop (2 + V.length) = ':' :: (text ++ [')', '\n']) := by
    rw [Nat.add_comm 2 V.length]
    show (V ++ ':' :: (text ++ [')', '\n'])).drop V.length = _
    exact List.drop_left V _
  have hsplitA : D.data = ('$' :: '(' :: (V ++ [':'])) ++ (text ++ [')', '\n']) := by
    rw [hdata]; simp [List.append_assoc]
  have hdropA : D.data.drop (2 + V.length + 1) = text ++ [')', '\n'] := by
    rw [hsplitA, show 2 + V.length + 1
        = (('$' :: '(' :: (V ++ [':'])) : List Char).length from by simp; omega]
    exact List.drop_left _ _
  have hsplitB : D.data = ('$' :: '(' :: (V ++ ':' :: text)) ++ [')', '\n'] := by
    rw [hdata]; simp [List.append_assoc]
  have hdropB : D.data.drop (2 + V.length + 1 + text.length) = [')', '\n'] := by
    rw [hsplitB, show 2 + V.length + 1 + text.length
        = (('$' :: '(' :: (V ++ ':' :: text)) : List Char).length from by simp; omega]
    exact List.drop_left _ _
  have hsplitC : D.data = ('$' :: '(' :: (V ++ ':' :: (text ++ [')']))) ++ ['\n'] := by
    rw [hdata]; simp [List.append_assoc]
  have hdropC : D.data.drop (2 + V.length + 1 + text.length + 1) = ['\n'] := by
    rw [hsplitC, show 2 + V.length + 1 + text.length + 1
        = (('$' :: '(' :: (V ++ ':' :: (text ++ [')']))) : List Char).length from by
      simp; omega]
    exact List.drop_left _ _
  have hsliceV : slice D.data 2 (2 + V.length) = V := by
    unfold slice
    rw [show 2 + V.length - 2 = V.length from by omega, hdrop2]
    exact List.take_left V _
  have hsliceColon : slice D.data (2 + V.length) (2 + V.length + 1) = [':'] := by
    unfold slice
    rw [Nat.add_sub_cancel_left, hdropColon]
    rfl
  have hsliceText : slice D.data (2 + V.length + 1) (2 + V.length + 1 + text.length)
      = text := by
    unfold slice
    rw [show 2 + V.length + 1 + text.length - (2 + V.length + 1) = text.length from by omega,
      hdropA]
    exact List.take_left text _
  have hsliceParen : slice D.data (2 + V.length + 1 + text.length)
      (2 + V.length + 1 + text.length + 1) = [')'] := by
    unfold slice
    rw [Nat.add_sub_cancel_left, hdropB]
    rfl
  have hsliceNl : slice D.data (2 + V.length + 1 + text.length + 1)
      (2 + V.length + 1 + text.length + 1 + 1) = ['\n'] := by
    unfold slice
    rw [Nat.add_sub_cancel_left, hdropC]
    rfl
  have halts1 : ∀ a ∈ mkAlts [[':'], ['('], [')'], ['$']], altNoAlpha a = true := by decide
  have halts2 : ∀ a ∈ mkAlts [['='], ['('], [')'], ['$']], altNoAlpha a = true := by decide
  have hre1 : research (mkAlts [['$']]) D.data 0 = some (['$'], 0, 1) := rfl
  have hre2 : research (mkAlts [[':'], ['('], [')'], ['$']]) D.data 2
      = some ([':'], 2 + V.length, 2 + V.length + 1) := by
    have hfm2 : firstMatchLen (mkAlts [[':'], ['('], [')'], ['$']])
        (':' :: (text ++ [')', '\n'])) = some 1 := by
      simp [firstMatchLen, mkAlts, matchAltLen, List.isPrefixOf]
    unfold research
    rw [hdrop2, scanMatch_alpha_skip halts1 V _ hV, scanMatch_cons_some hfm2]
    simp only [Option.map]
    simp only [Nat.zero_add]
    rw [hsliceColon]
  have hre3 : research (mkAlts [['='], ['('], [')'], ['$']]) D.data (2 + V.length + 1)
      = some ([')'], 2 + V.length + 1 + text.length,
          2 + V.length + 1 + text.length + 1) := by
    unfold research
    rw [hdropA, scanMatch_alpha_skip halts2 text _ ht,
      scanMatch_cons_some (by decide : firstMatchLen (mkAlts [['='], ['('], [')'], ['$']])
        (')' :: ['\n']) = some 1)]
    simp only [Option.map]
    simp only [Nat.zero_add]
    rw [hsliceParen]
  have hre4 : research (mkAlts [['$']]) D.data (2 + V.length + 1 + text.length + 1)
      = some (['\n'], 2 + V.length + 1 + text.length + 1,
          2 + V.length + 1 + text.length + 1 + 1) := by
    unfold research
    rw [hdropC, scanMatch_cons_some (by decide : firstMatchLen (mkAlts [['$']])
      ('\n' :: []) = some 1)]
    simp only [Option.map]
    simp only [Nat.add_zero]
    rw [hsliceNl]
  have hstep1 : mkStep 9 D 0 [['$']] = Except.ok (IStep.tok [] ['$'] 0 1, D) := by
    rw [mkStep_plain_tok 9 D 0 [['$']] ['$'] 0 1 (by omega) hre1 (by decide) (by decide)
      (by decide)]
    rfl
  have hnext1 : mkNext 10 D 0 [['$']] = Except.ok ([], NextRes.tok ['$'] 0 1, D) :=
    mkNext_of_tok hstep1
  have hstep2 : mkStep 8 D 2 [[':'], ['('], [')'], ['$']]
      = Except.ok (IStep.tok V [':'] (2 + V.length) (2 + V.length + 1), D) := by
    rw [mkStep_plain_tok 8 D 2 [[':'], ['('], [')'], ['$']] [':'] (2 + V.length)
      (2 + V.length + 1) (by omega) hre2 (by decide) (by decide) (by decide), hsliceV]
  have hnext2 : mkNext 9 D 2 [[':'], ['('], [')'], ['$']]
      = Except.ok (V, NextRes.tok [':'] (2 + V.length) (2 + V.length + 1), D) :=
    mkNext_of_tok hstep2
  have hstep3 : mkStep 7 D (2 + V.length + 1) [['='], ['('], [')'], ['$']]
      = Except.ok (IStep.tok text [')'] (2 + V.length + 1 + text.length)
          (2 + V.length + 1 + text.length + 1), D) := by
    rw [mkStep_plain_tok 7 D (2 + V.length + 1) [['='], ['('], [')'], ['$']] [')']
      (2 + V.length + 1 + text.length) (2 + V.length + 1 + text.length + 1) (by omega) hre3
      (by decide) (by decide) (by decide), hsliceText]
  have hnext3 : mkNext 8 D (2 + V.length + 1) [['='], ['('], [')'], ['$']]
      = Except.ok (text, NextRes.tok [')'] (2 + V.length + 1 + text.length)
          (2 + V.length + 1 + text.length + 1), D) :=
    mkNext_of_tok hstep3
  have hstep4 : mkStep 6 D (2 + V.length + 1 + text.length + 1) [['$']]
      = Except.ok (IStep.finish [] true, D) := by
    rw [mkStep_nl_finish 6 D (2 + V.length + 1 + text.length + 1) [['$']]
      (2 + V.length + 1 + text.length + 1) (2 + V.length + 1 + text.length + 1 + 1)
      (by omega) hre4 (by omega)]
    rw [show slice D.data (2 + V.length + 1 + text.length + 1)
        (2 + V.length + 1 + text.length + 1) = [] from by
      unfold slice; rw [Nat.sub_self]; rfl]
  have hnext4 : mkNext 7 D (2 + V.length + 1 + text.length + 1) [['$']]
      = Except.ok ([], NextRes.done true, D) :=
    mkNext_of_finish hstep4
  have hloc0 : D.getloc (some 0) = some l0 := by
    rw [hDdef]
    exact getloc_fromstring_zero _ l0 (by simp)
  have hc1 : D.data[1]? = some '(' := by rw [hdata]; simp
  have hftw1 : findtokenWs D (1 + 1) functiontokenlist = (none, 2) := by
    rw [hDdef]
    exact ftw_none_of_goodTail hV ht (by decide)
  unfold pms
  rw [hloc0]
  dsimp only
  simp only [List.nil_append]
  unfold plLoop
  dsimp only [iterNext]
  rw [hnext1]
  dsimp only
  rw [dispatch_dollar_varname (by omega) hloc0 hc1 hftw1]
  dsimp only
  unfold plLoop
  dsimp only [iterNext]
  rw [hnext2]
  dsimp only
  rw [dispatch_varname_colon rfl rfl rfl]
  dsimp only
  unfold plLoop
  dsimp only [iterNext]
  rw [hnext3]
  dsimp only
  rw [dispatch_substfrom_close rfl]
  dsimp only
  unfold plLoop
  dsimp only [iterNext]
  rw [hnext4]
  dsimp only
  rw [varname_combine]
  rfl

/-- Witness for C6: the spec's own example $(V:bogus) yields a plain
VariableRef named "V:bogus" plus exactly one warning at the reference's
location. -/
theorem claim_C6_witness :
    (∀ c ∈ (['V'] : List Char), c.isAlpha = true)
      ∧ (∀ c ∈ (['b', 'o', 'g', 'u', 's'] : List Char), c.isAlpha = true)
      ∧ pms 10 IterKind.makefile
          (Data.fromstring
            ('$' :: '(' :: (['V'] ++ ':' :: (['b', 'o', 'g', 'u', 's'] ++ [')', '\n'])))
            ⟨"m", 1, 0⟩) 0 []
        = Except.ok ⟨[ExpNode.varref ⟨"m", 1, 0⟩
              [ExpNode.lit (['V'] ++ ':' :: ['b', 'o', 'g', 'u', 's'])]], none,
            Data.fromstring
              ('$' :: '(' :: (['V'] ++ ':' :: (['b', 'o', 'g', 'u', 's'] ++ [')', '\n'])))
              ⟨"m", 1, 0⟩, [⟨"m", 1, 0⟩]⟩ :=
  ⟨by decide, by decide,
    claim_C6 ['V'] ['b', 'o', 'g', 'u', 's'] ⟨"m", 1, 0⟩ (by decide) (by decide)⟩

lemma isPrefixOf_eq_take {t s : List Char} (h : t.isPrefixOf s = true) :
    s.take t.length = t :=
  (List.prefix_iff_eq_take.mp (List.isPrefixOf_iff_prefix.mp h)).symm

lemma isPrefixOf_length_le {t s : List Char} (h : t.isPrefixOf s = true) :
    t.length ≤ s.length :=
  (List.isPrefixOf_iff_prefix.mp h).length_le

lemma slice_drop_one (data : List Char) (s e : Nat) :
    slice data (s + 1) e = (slice data s e).drop 1 := by
  unfold slice
  rw [List.drop_take, List.drop_drop, Nat.sub_sub, Nat.add_comm s 1]

lemma matchAltLen_some_cases {s : List Char} {a : Alt} {k : Nat}
    (h : matchAltLen s a = some k) :
    k ≤ s.length ∧
      ((∃ t, a = Alt.lit t ∧ t.isPrefixOf s = true ∧ k = t.length) ∨
        ((a = Alt.bsAny ∨ a = Alt.bsWsBsNl) ∧ (s.take k).head? = some '\\')) := by
  cases a with
  | lit t =>
    unfold matchAltLen at h
    dsimp only at h
    split_ifs at h with hp
    cases h
    exact ⟨isPrefixOf_length_le hp, Or.inl ⟨t, rfl, hp, rfl⟩⟩
  | bsAny =>
    unfold matchAltLen at h
    dsimp only at h
    rcases s with _ | ⟨c0, s1⟩
    · cases h
    · rcases s1 with _ | ⟨c1, s2⟩
      · cases h
      · dsimp only at h
        split_ifs at h with h1 h2
        cases h
        refine ⟨by simp, Or.inr ⟨Or.inl rfl, ?_⟩⟩
        simp [h1]
  | bsWsBsNl =>
    unfold matchAltLen at h
    dsimp only at h
    rcases s with _ | ⟨c0, rest⟩
    · cases h
    · dsimp only at h
      split_ifs at h with h1 h2
      cases h
      obtain ⟨hpos, hbs, hnl⟩ := h2
      have hlt : countSpaces rest + 1 < rest.length := by
        rcases List.getElem?_eq_some.mp hnl with ⟨hl, _⟩
        exact hl
      refine ⟨by simp; omega, Or.inr ⟨Or.inr rfl, ?_⟩⟩
      simp [h1]

lemma firstMatchLen_some_cases {alts : List Alt} {s : List Char} {k : Nat}
    (h : firstMatchLen alts s = some k) :
    k ≤ s.length ∧
      ((∃ t, Alt.lit t ∈ alts ∧ t.isPrefixOf s = true ∧ k = t.length) ∨
        ((Alt.bsAny ∈ alts ∨ Alt.bsWsBsNl ∈ alts) ∧ (s.take k).head? = some '\\')) := by
  obtain ⟨a, ha, hma⟩ := List.exists_of_findSome?_eq_some h
  obtain ⟨hk, hc⟩ := matchAltLen_some_cases hma
  refine ⟨hk, ?_⟩
  rcases hc with ⟨t, rfl, hp, hkt⟩ | ⟨hm, hh⟩
  · exact Or.inl ⟨t, ha, hp, hkt⟩
  · rcases hm with rfl | rfl
    · exact Or.inr ⟨Or.inl ha, hh⟩
    · exact Or.inr ⟨Or.inr ha, hh⟩

lemma scanMatch_some_fml {alts : List Alt} : ∀ {s : List Char} {p1 p2 : Nat},
    scanMatch alts s = some (p1, p2) → firstMatchLen alts (s.drop p1) = some p2 := by
  intro s
  induction s with
  | nil =>
    intro p1 p2 h
    unfold scanMatch at h
    rcases hf : firstMatchLen alts [] with _ | n <;> rw [hf] at h
    · cases h
    · simp only [Option.map] at h
      cases h
      exact hf
  | cons c rest ih =>
    intro p1 p2 h
    unfold scanMatch at h
    rcases hf : firstMatchLen alts (c :: rest) with _ | n <;> rw [hf] at h
    · dsimp only at h
      rcases hsm : scanMatch alts rest with _ | ⟨q1, q2⟩ <;> rw [hsm] at h
      · cases h
      · simp only [Option.map] at h
        cases h
        rw [List.drop_succ_cons]
        exact ih hsm
    · cases h
      exact hf

lemma research_some_cases {alts : List Alt} {data : List Char} {i : Nat}
    {txt : List Char} {start e : Nat}
    (h : research alts data i = some (txt, start, e)) :
    txt = slice data start e ∧ start + txt.length = e ∧
      ((∃ t, Alt.lit t ∈ alts ∧ txt = t) ∨
        ((Alt.bsAny ∈ alts ∨ Alt.bsWsBsNl ∈ alts) ∧ txt.head? = some '\\')) := by
  unfold research at h
  rcases hsm : scanMatch alts (data.drop i) with _ | ⟨p1, p2⟩ <;> rw [hsm] at h
  · cases h
  · simp only [Option.map] at h
    cases h
    have hfml := scanMatch_some_fml hsm
    rw [List.drop_drop] at hfml
    obtain ⟨hk, hc⟩ := firstMatchLen_some_cases hfml
    have htake : slice data (i + p1) (i + p1 + p2) = (data.drop (i + p1)).take p2 := by
      unfold slice
      rw [Nat.add_sub_cancel_left]
    have hlen : (slice data (i + p1) (i + p1 + p2)).length = p2 := by
      rw [htake, List.length_take]
      omega
    refine ⟨rfl, by omega, ?_⟩
    rcases hc with ⟨t, hmem, hp, hkt⟩ | ⟨hm, hh⟩
    · exact Or.inl ⟨t, hmem, by rw [htake, hkt, isPrefixOf_eq_take hp]⟩
    · exact Or.inr ⟨hm, by rw [htake]; exact hh⟩

lemma mkAlts_lit_mem {tl : TL} {t : List Char} (h : Alt.lit t ∈ mkAlts tl) :
    t ∈ tl ∨ t = ['\\', '\\', '#'] ∨ t = ['\\', '#'] ∨ t = ['\\', '\n'] ∨
      t = ['#'] ∨ t = ['\n'] := by
  simp [mkAlts] at h
  tauto

lemma contAlts_lit_mem {tl : TL} {t : List Char} (h : Alt.lit t ∈ contAlts tl) :
    t ∈ tl ∨ t = ['\\', '\n'] ∨ t = ['\n'] := by
  simp [contAlts] at h
  tauto

lemma simpleAlts_lit_mem {tl : TL} {t : List Char} (h : Alt.lit t ∈ simpleAlts tl) :
    t ∈ tl := by
  simp [simpleAlts] at h
  exact h

lemma mkStep_tok_inv {f : Nat} {d : Data} {off : Nat} {tl : TL} {c t : List Char}
    {toff aoff : Nat} {d2 : Data}
    (h : mkStep f d off tl = Except.ok (IStep.tok c t toff aoff, d2)) :
    d2 = d ∧ t ∈ tl ∧ toff + t.length = aoff ∧ slice d2.data toff aoff = t := by
  unfold mkStep at h
  by_cases hlt : off < d.data.length
  case neg => rw [if_neg hlt] at h; cases h
  rw [if_pos hlt] at h
  rcases hre : research (mkAlts tl) d.data off with _ | ⟨txt, start, e⟩ <;> rw [hre] at h
  · cases h
  obtain ⟨htxt, hse, hcase⟩ := research_some_cases hre
  dsimp only at h
  by_cases h1 : txt = ['\n']
  · rw [if_pos h1] at h; split_ifs at h <;> cases h
  rw [if_neg h1] at h
  by_cases h2 : txt = ['#']
  · rw [if_pos h2] at h
    rcases hdm : drainMk f d e with er | d3 <;> rw [hdm] at h <;> cases h
  rw [if_neg h2] at h
  by_cases h3 : txt = ['\\', '\\', '#']
  · rw [if_pos h3] at h
    rcases hdm : drainMk f d e with er | d3 <;> rw [hdm] at h <;> cases h
  rw [if_neg h3] at h
  by_cases h4 : txt = ['\\', '\n']
  · rw [if_pos h4] at h; cases h
  rw [if_neg h4] at h
  by_cases h5 : (txt.head? == some '\\' && txt.getLast? == some '\n') = true
  · rw [if_pos h5] at h; split_ifs at h <;> cases h
  rw [if_neg h5] at h
  by_cases h6 : txt = ['\\', '#']
  · rw [if_pos h6] at h; cases h
  rw [if_neg h6] at h
  by_cases h7 : (txt.head? == some '\\') = true
  · rw [if_pos h7] at h
    by_cases h8 : txt.drop 1 ∈ tl
    · rw [if_pos h8] at h
      cases h
      have hhd : txt.head? = some '\\' := by simpa using h7
      rcases txt with _ | ⟨c0, txt1⟩
      · cases hhd
      have hc0 : c0 = '\\' := by injection hhd
      subst hc0
      refine ⟨rfl, by simpa using h8, ?_, ?_⟩
      · simp only [List.drop_succ_cons, List.drop_zero]
        simp only [List.length_cons] at hse
        omega
      · rw [slice_drop_one, ← htxt]
    · rw [if_neg h8] at h; cases h
  rw [if_neg h7] at h
  cases h
  refine ⟨rfl, ?_, hse, htxt.symm⟩
  rcases hcase with ⟨t', hmem, rfl⟩ | ⟨_, hh⟩
  · rcases mkAlts_lit_mem hmem with hin | rfl | rfl | rfl | rfl | rfl
    · exact hin
    · exact absurd rfl h3
    · exact absurd rfl h6
    · exact absurd rfl h4
    · exact absurd rfl h2
    · exact absurd rfl h1
  · exact absurd (by simpa using hh) h7

lemma cmdStep_tok_inv {d : Data} {off : Nat} {tl : TL} {c t : List Char}
    {toff aoff : Nat} {d2 : Data}
    (h : cmdStep d off tl = Except.ok (IStep.tok c t toff aoff, d2)) :
    d2 = d ∧ t ∈ tl ∧ toff + t.length = aoff ∧ slice d2.data toff aoff = t := by
  unfold cmdStep at h
  by_cases hlt : off < d.data.length
  case neg => rw [if_neg hlt] at h; cases h
  rw [if_pos hlt] at h
  rcases hre : research (contAlts tl) d.data off with _ | ⟨txt, start, e⟩ <;> rw [hre] at h
  · cases h
  obtain ⟨htxt, hse, hcase⟩ := research_some_cases hre
  dsimp only at h
  by_cases h1 : txt = ['\n']
  · rw [if_pos h1] at h; split_ifs at h <;> cases h
  rw [if_neg h1] at h
  by_cases h2 : txt = ['\\', '\n']
  · rw [if_pos h2] at h; cases h
  rw [if_neg h2] at h
  by_cases h3 : (txt.head? == some '\\') = true
  · rw [if_pos h3] at h
    by_cases h4 : txt.drop 1 ∈ tl
    · rw [if_pos h4] at h
      cases h
      have hhd : txt.head? = some '\\' := by simpa using h3
      rcases txt with _ | ⟨c0, txt1⟩
      · cases hhd
      have hc0 : c0 = '\\' := by injection hhd
      subst hc0
      refine ⟨rfl, by simpa using h4, ?_, ?_⟩
      · simp only [List.drop_succ_cons, List.drop_zero]
        simp only [List.length_cons] at hse
        omega
      · rw [slice_drop_one, ← htxt]
    · rw [if_neg h4] at h; cases h
  rw [if_neg h3] at h
  cases h
  refine ⟨rfl, ?_, hse, htxt.symm⟩
  rcases hcase with ⟨t', hmem, rfl⟩ | ⟨_, hh⟩
  · rcases contAlts_lit_mem hmem with hin | rfl | rfl
    · exact hin
    · exact absurd rfl h2
    · exact absurd rfl h1
  · exact absurd (by simpa using hh) h3

lemma dataStep_tok_inv {d : Data} {off : Nat} {tl : TL} {c t : List Char}
    {toff aoff : Nat} {d2 : Data}
    (h : dataStep d off tl = Except.ok (IStep.tok c t toff aoff, d2)) :
    d2 = d ∧ t ∈ tl ∧ toff + t.length = aoff ∧ slice d2.data toff aoff = t := by
  unfold dataStep at h
  split_ifs at h with he hlt
  · cases h
  · rcases hre : research (simpleAlts tl) d.data off with _ | ⟨txt, start, e⟩ <;> rw [hre] at h
    · cases h
    obtain ⟨htxt, hse, hcase⟩ := research_some_cases hre
    cases h
    refine ⟨rfl, ?_, hse, htxt.symm⟩
    rcases hcase with ⟨t', hmem, rfl⟩ | ⟨hm, _⟩
    · exact simpleAlts_lit_mem hmem
    · rcases hm with hm | hm <;> simp [simpleAlts] at hm
  · cases h

lemma defStep_tok_inv {d : Data} {off : Nat} {tl : TL} {dc : Int} {so : Nat}
    {c t : List Char} {toff aoff : Nat} {d2 : Data} {dc2 : Int}
    (h : defStep d off tl dc so = Except.ok (IStep.tok c t toff aoff, d2, dc2)) :
    d2 = d ∧ t ∈ tl ∧ toff + t.length = aoff ∧ slice d2.data toff aoff = t := by
  unfold defStep at h
  by_cases hlt : off < d.data.length
  case neg =>
    rw [if_neg hlt] at h
    rcases hg : d.getloc (some so) with _ | l <;> rw [hg] at h <;> cases h
  rw [if_pos hlt] at h
  rcases hre : research (contAlts tl) d.data off with _ | ⟨txt, start, e⟩ <;> rw [hre] at h
  · rcases hg : d.getloc (some so) with _ | l <;> rw [hg] at h <;> cases h
  obtain ⟨htxt, hse, hcase⟩ := research_some_cases hre
  dsimp only at h
  by_cases h1 : txt = ['\\', '\n']
  · rw [if_pos h1] at h; cases h
  rw [if_neg h1] at h
  by_cases h2 : txt = ['\n']
  · rw [if_pos h2] at h; split_ifs at h <;> cases h
  rw [if_neg h2] at h
  by_cases h3 : (txt.head? == some '\\') = true
  · rw [if_pos h3] at h
    by_cases h4 : txt.drop 1 ∈ tl
    · rw [if_pos h4] at h
      cases h
      have hhd : txt.head? = some '\\' := by simpa using h3
      rcases txt with _ | ⟨c0, txt1⟩
      · cases hhd
      have hc0 : c0 = '\\' := by injection hhd
      subst hc0
      refine ⟨rfl, by simpa using h4, ?_, ?_⟩
      · simp only [List.drop_succ_cons, List.drop_zero]
        simp only [List.length_cons] at hse
        omega
      · rw [slice_drop_one, ← htxt]
    · rw [if_neg h4] at h; cases h
  rw [if_neg h3] at h
  cases h
  refine ⟨rfl, ?_, hse, htxt.symm⟩
  rcases hcase with ⟨t', hmem, rfl⟩ | ⟨_, hh⟩
  · rcases contAlts_lit_mem hmem with hin | rfl | rfl
    · exact hin
    · exact absurd rfl h1
    · exact absurd rfl h2
  · exact absurd (by simpa using hh) h3

lemma mkNext_tok_inv : ∀ (f : Nat) {d : Data} {off : Nat} {tl : TL} {chunk t : List Char}
    {toff aoff : Nat} {d2 : Data},
    mkNext f d off tl = Except.ok (chunk, NextRes.tok t toff aoff, d2) →
    t ∈ tl ∧ toff + t.length = aoff ∧ slice d2.data toff aoff = t := by
  intro f
  induction f with
  | zero => intro _ _ _ _ _ _ _ _ h; exact absurd h (by simp [mkNext])
  | succ f ih =>
    intro d off tl chunk t toff aoff d2 h
    unfold mkNext at h
    rcases hst : mkStep f d off tl with er | ⟨st, d3⟩ <;> rw [hst] at h
    · cases h
    cases st with
    | finish c y => cases h
    | tok c t2 toff2 aoff2 =>
      cases h
      obtain ⟨hd, hmem, hlen, hsl⟩ := mkStep_tok_inv hst
      exact ⟨hmem, hlen, hsl⟩
    | cont c noff =>
      dsimp only at h
      rcases hnx : mkNext f d3 noff tl with er | ⟨rest2, r2, d4⟩ <;> rw [hnx] at h
      · cases h
      cases r2 with
      | done y => cases h
      | tok t2 toff2 aoff2 => cases h; exact ih hnx

lemma cmdNext_tok_inv : ∀ (f : Nat) {d : Data} {off : Nat} {tl : TL} {chunk t : List Char}
    {toff aoff : Nat} {d2 : Data},
    cmdNext f d off tl = Except.ok (chunk, NextRes.tok t toff aoff, d2) →
    t ∈ tl ∧ toff + t.length = aoff ∧ slice d2.data toff aoff = t := by
  intro f
  induction f with
  | zero => intro _ _ _ _ _ _ _ _ h; exact absurd h (by simp [cmdNext])
  | succ f ih =>
    intro d off tl chunk t toff aoff d2 h
    unfold cmdNext at h
    rcases hst : cmdStep d off tl with er | ⟨st, d3⟩ <;> rw [hst] at h
    · cases h
    cases st with
    | finish c y => cases h
    | tok c t2 toff2 aoff2 =>
      cases h
      obtain ⟨hd, hmem, hlen, hsl⟩ := cmdStep_tok_inv hst
      exact ⟨hmem, hlen, hsl⟩
    | cont c noff =>
      dsimp only at h
      rcases hnx : cmdNext f d3 noff tl with er | ⟨rest2, r2, d4⟩ <;> rw [hnx] at h
      · cases h
      cases r2 with
      | done y => cases h
      | tok t2 toff2 aoff2 => cases h; exact ih hnx

lemma dataNext_tok_inv (f : Nat) {d : Data} {off : Nat} {tl : TL} {chunk t : List Char}
    {toff aoff : Nat} {d2 : Data}
    (h : dataNext f d off tl = Except.ok (chunk, NextRes.tok t toff aoff, d2)) :
    t ∈ tl ∧ toff + t.length = aoff ∧ slice d2.data toff aoff = t := by
  cases f with
  | zero => exact absurd h (by simp [dataNext])
  | succ f =>
    unfold dataNext at h
    dsimp only at h
    rcases hst : dataStep d off tl with er | ⟨st, d3⟩ <;> rw [hst] at h
    · cases h
    cases st with
    | finish c y => cases h
    | tok c t2 toff2 aoff2 =>
      cases h
      obtain ⟨hd, hmem, hlen, hsl⟩ := dataStep_tok_inv hst
      exact ⟨hmem, hlen, hsl⟩
    | cont c noff => dsimp only at h; cases h

lemma defLoop_tok_inv : ∀ (f : Nat) {d : Data} {off : Nat} {tl : TL} {dc : Int} {so : Nat}
    {chunk t : List Char} {toff aoff : Nat} {d2 : Data} {dc2 : Int},
    defLoop f d off tl dc so = Except.ok (chunk, NextRes.tok t toff aoff, d2, dc2) →
    t ∈ tl ∧ toff + t.length = aoff ∧ slice d2.data toff aoff = t := by
  intro f
  induction f with
  | zero => intro _ _ _ _ _ _ _ _ _ _ _ h; exact absurd h (by simp [defLoop])
  | succ f ih =>
    intro d off tl dc so chunk t toff aoff d2 dc2 h
    unfold defLoop at h
    rcases hst : defStep d off tl dc so with er | ⟨st, d3, dc3⟩ <;> rw [hst] at h
    · cases h
    cases st with
    | finish c y => cases h
    | tok c t2 toff2 aoff2 =>
      cases h
      obtain ⟨hd, hmem, hlen, hsl⟩ := defStep_tok_inv hst
      exact ⟨hmem, hlen, hsl⟩
    | cont c noff =>
      dsimp only at h
      rcases hnx : defLoop f d3 noff tl dc3 so with er | ⟨rest2, r2, d4, dc4⟩ <;> rw [hnx] at h
      · cases h
      cases r2 with
      | done y => cases h
      | tok t2 toff2 aoff2 => cases h; exact ih hnx

lemma defNext_tok_inv (f : Nat) {d : Data} {off : Nat} {tl : TL} {chunk t : List Char}
    {toff aoff : Nat} {d2 : Data}
    (h : defNext f d off tl = Except.ok (chunk, NextRes.tok t toff aoff, d2)) :
    t ∈ tl ∧ toff + t.length = aoff ∧ slice d2.data toff aoff = t := by
  unfold defNext at h
  dsimp only at h
  split_ifs at h
  · cases h
  · rcases hdl : defLoop f d off tl (1 + checkfortoken d off) off with er | ⟨c2, r2, d3, dc3⟩
    · rw [hdl] at h; cases h
    · rw [hdl] at h
      dsimp only at h
      cases h
      exact defLoop_tok_inv f hdl

lemma iterNext_tok_inv (ik : IterKind) (f : Nat) {d : Data} {off : Nat} {tl : TL}
    {chunk t : List Char} {toff aoff : Nat} {d2 : Data}
    (h : iterNext ik f d off tl = Except.ok (chunk, NextRes.tok t toff aoff, d2)) :
    t ∈ tl ∧ toff + t.length = aoff ∧ slice d2.data toff aoff = t := by
  cases ik with
  | dataIter => exact dataNext_tok_inv f h
  | makefile => exact mkNext_tok_inv f h
  | command => exact cmdNext_tok_inv f h
  | defineBody => exact defNext_tok_inv f h

lemma BWF_replace {stopon : TL} {a b : Frame} {l : List Frame}
    (hps : b.parsestate = a.parsestate) (htl : b.tokenlist = a.tokenlist)
    (hB : BottomWF stopon (a :: l)) : BottomWF stopon (b :: l) := by
  cases l with
  | nil => exact ⟨hps.trans hB.1, htl.trans hB.2⟩
  | cons x xs => exact hB

lemma BWF_push {stopon : TL} {a b : Frame} {l : List Frame}
    (hB : BottomWF stopon (b :: l)) : BottomWF stopon (a :: b :: l) := hB

lemma dispatch_ret_inv {d : Data} {t : List Char} {toff aoff : Nat} {top : Frame}
    {rest : List Frame} {warns : List Loc} {r : PMSRes}
    (h : dispatch d t toff aoff top rest warns = Except.ok (DOut.ret r)) :
    rest = [] ∧ t ≠ ['$'] ∧ r = ⟨top.expansion, some (t, aoff), d, warns⟩ := by
  unfold dispatch at h
  by_cases h1 : t = ['$']
  · rw [if_pos h1] at h
    split_ifs at h with h2
    · cases h
    · rcases hg : d.getloc (some toff) with _ | loc <;> rw [hg] at h
      · cases h
      rcases hc : d.data[aoff]? with _ | ch <;> rw [hc] at h
      · cases h
      dsimp only at h
      split_ifs at h with h3 h4
      · cases h
      · rcases hft : findtokenWs d (aoff + 1) functiontokenlist with ⟨fno, o2⟩
        rw [hft] at h
        rcases fno with _ | fn <;> dsimp only at h <;> cases h
      · cases h
  rw [if_neg h1] at h
  by_cases h2 : (t = ['('] || t = ['{']) = true
  · rw [if_pos h2] at h
    split_ifs at h with h3
    rcases hcb : top.closebrace with _ | cb <;> rw [hcb] at h
    · cases h
    rcases hg : d.getloc (some toff) with _ | ploc <;> rw [hg] at h <;> dsimp only at h <;>
      cases h
  rw [if_neg h2] at h
  by_cases h3 : top.parsestate = PState.parenmatch
  · rw [if_pos h3] at h
    split_ifs at h with h4
    rcases rest with _ | ⟨p, rest2⟩ <;> dsimp only at h <;> cases h
  rw [if_neg h3] at h
  by_cases h4 : top.parsestate = PState.toplevel
  · rw [if_pos h4] at h
    split_ifs at h with h5
    cases h
    exact ⟨List.isEmpty_iff.mp h5, h1, rfl⟩
  rw [if_neg h4] at h
  by_cases h5 : top.parsestate = PState.functionCall
  · rw [if_pos h5] at h
    split_ifs at h with h6 h7
    · rcases hob : top.openbrace with _ | ob <;> rcases hcb : top.closebrace with _ | cb <;>
        rw [hob, hcb] at h <;> dsimp only at h <;> cases h
    · rcases rest with _ | ⟨p, rest2⟩ <;> dsimp only at h <;> cases h
  rw [if_neg h5] at h
  by_cases h6 : top.parsestate = PState.varname
  · rw [if_pos h6] at h
    split_ifs at h with h7 h8
    · rcases hob : top.openbrace with _ | ob <;> rcases hcb : top.closebrace with _ | cb <;>
        rw [hob, hcb] at h <;> dsimp only at h <;> cases h
    · rcases rest with _ | ⟨p, rest2⟩ <;> dsimp only at h <;> cases h
  rw [if_neg h6] at h
  by_cases h7 : top.parsestate = PState.substfrom
  · rw [if_pos h7] at h
    split_ifs at h with h8 h9
    · rcases hob : top.openbrace with _ | ob <;> rcases hcb : top.closebrace with _ | cb <;>
        rw [hob, hcb] at h <;> dsimp only at h <;> cases h
    · rcases rest with _ | ⟨p, rest2⟩ <;> dsimp only at h <;> cases h
  rw [if_neg h7] at h
  split_ifs at h with h8
  rcases rest with _ | ⟨p, rest2⟩ <;> dsimp only at h <;> cases h

lemma dispatch_next_BWF {stopon : TL} {d : Data} {t : List Char} {toff aoff : Nat}
    {top : Frame} {rest : List Frame} {warns : List Loc} {stack2 : List Frame}
    {scan2 : Nat} {warns2 : List Loc} (hB : BottomWF stopon (top :: rest))
    (h : dispatch d t toff aoff top rest warns = Except.ok (DOut.next stack2 scan2 warns2)) :
    BottomWF stopon stack2 := by
  unfold dispatch at h
  by_cases h1 : t = ['$']
  · rw [if_pos h1] at h
    split_ifs at h with h2
    · cases h
    · rcases hg : d.getloc (some toff) with _ | loc <;> rw [hg] at h
      · cases h
      rcases hc : d.data[aoff]? with _ | ch <;> rw [hc] at h
      · cases h
      dsimp only at h
      split_ifs at h with h3 h4
      · cases h
        exact BWF_replace (by rfl) (by rfl) hB
      · rcases hft : findtokenWs d (aoff + 1) functiontokenlist with ⟨fno, o2⟩
        rw [hft] at h
        rcases fno with _ | fn <;> dsimp only at h <;> cases h <;> exact hB
      · cases h
        exact BWF_replace (by rfl) (by rfl) hB
  rw [if_neg h1] at h
  by_cases h2 : (t = ['('] || t = ['{']) = true
  · rw [if_pos h2] at h
    split_ifs at h with h3
    rcases hcb : top.closebrace with _ | cb <;> rw [hcb] at h
    · cases h
    rcases hg : d.getloc (some toff) with _ | ploc <;> rw [hg] at h <;> dsimp only at h
    · cases h
    cases h
    exact BWF_push (BWF_replace (by rfl) (by rfl) hB)
  rw [if_neg h2] at h
  by_cases h3 : top.parsestate = PState.parenmatch
  · rw [if_pos h3] at h
    split_ifs at h with h4
    rcases rest with _ | ⟨p, rest2⟩ <;> dsimp only at h
    · cases h
    cases h
    exact BWF_replace (by rfl) (by rfl) hB
  rw [if_neg h3] at h
  by_cases h4 : top.parsestate = PState.toplevel
  · rw [if_pos h4] at h
    split_ifs at h with h5
    cases h
  rw [if_neg h4] at h
  by_cases h5 : top.parsestate = PState.functionCall
  · rw [if_pos h5] at h
    split_ifs at h with h6 h7
    · rcases hob : top.openbrace with _ | ob <;> rcases hcb : top.closebrace with _ | cb <;>
        rw [hob, hcb] at h <;> dsimp only at h
      · cases h
      · cases h
      · cases h
      cases h
      cases rest with
      | nil => exact absurd hB.1 (by rw [h5]; decide)
      | cons x xs => exact hB
    · rcases rest with _ | ⟨p, rest2⟩ <;> dsimp only at h
      · cases h
      cases h
      exact BWF_replace (by rfl) (by rfl) hB
  rw [if_neg h5] at h
  by_cases h6 : top.parsestate = PState.varname
  · rw [if_pos h6] at h
    split_ifs at h with h7 h8
    · rcases hob : top.openbrace with _ | ob <;> rcases hcb : top.closebrace with _ | cb <;>
        rw [hob, hcb] at h <;> dsimp only at h
      · cases h
      · cases h
      · cases h
      cases h
      cases rest with
      | nil => exact absurd hB.1 (by rw [h6]; decide)
      | cons x xs => exact hB
    · rcases rest with _ | ⟨p, rest2⟩ <;> dsimp only at h
      · cases h
      cases h
      exact BWF_replace (by rfl) (by rfl) hB
  rw [if_neg h6] at h
  by_cases h7 : top.parsestate = PState.substfrom
  · rw [if_pos h7] at h
    split_ifs at h with h8 h9
    · rcases hob : top.openbrace with _ | ob <;> rcases hcb : top.closebrace with _ | cb <;>
        rw [hob, hcb] at h <;> dsimp only at h
      · cases h
      · cases h
      · cases h
      cases h
      cases rest with
      | nil => exact absurd hB.1 (by rw [h7]; decide)
      | cons x xs => exact hB
    · rcases rest with _ | ⟨p, rest2⟩ <;> dsimp only at h
      · cases h
      cases h
      exact BWF_replace (by rfl) (by rfl) hB
  rw [if_neg h7] at h
  split_ifs at h with h8
  rcases rest with _ | ⟨p, rest2⟩ <;> dsimp only at h
  · cases h
  cases h
  exact BWF_replace (by rfl) (by rfl) hB

lemma plLoop_stopOK {stopon : TL} : ∀ (fuel : Nat) {ik : IterKind} {d : Data} {scan : Nat}
    {stack : List Frame} {offvar : Option Nat} {warns : List Loc} {r : PMSRes},
    BottomWF stopon stack →
    plLoop fuel ik d scan stack offvar warns = Except.ok r → stopOK stopon r := by
  intro fuel
  induction fuel with
  | zero => intro _ _ _ _ _ _ _ _ h; exact absurd h (by simp [plLoop])
  | succ f ih =>
    intro ik d scan stack offvar warns r hB h
    unfold plLoop at h
    rcases stack with _ | ⟨top, rest⟩
    · cases h
    dsimp only at h
    rcases hit : iterNext ik (f + 1) d scan top.tokenlist with er | ⟨chunk, nr, d2⟩ <;>
      rw [hit] at h
    · cases h
    cases nr with
    | done y =>
      dsimp only at h
      split_ifs at h with hre
      · cases h
        simp only [stopOK]
      all_goals split at h <;> cases h
    | tok t toff aoff =>
      dsimp only at h
      rcases hdp : dispatch d2 t toff aoff
          { top with expansion := appendStr top.expansion chunk } rest warns with
        er | out <;> rw [hdp] at h
      · cases h
      cases out with
      | ret r2 =>
        cases h
        obtain ⟨hrest, hne, hr⟩ := dispatch_ret_inv hdp
        obtain ⟨hmem, hlen, hsl⟩ := iterNext_tok_inv ik (f + 1) hit
        subst hrest
        subst hr
        have htl : top.tokenlist = stopon ++ [['$']] := hB.2
        rw [htl] at hmem
        rcases List.mem_append.mp hmem with hin | hin
        · simp only [stopOK]
          refine ⟨hin, by omega, ?_⟩
          have : aoff - t.length = toff := by omega
          rw [this]
          exact hsl
        · simp only [List.mem_singleton] at hin
          exact absurd hin hne
      | brk ov =>
        dsimp only at h
        split_ifs at h with hre
        · cases h
          simp only [stopOK]
        all_goals split at h <;> cases h
      | next stack2 scan2 warns2 =>
        dsimp only at h
        exact ih (dispatch_next_BWF (BWF_replace (by rfl) (by rfl) hB) hdp) h

/-- C1: whenever parsemakesyntax returns normally, its result has either
stop token and offset both None (the whole logical line was consumed), or
a stop token that is a member of the stop set together with the offset
immediately after that token's occurrence in the buffer; with the empty
stop set the returned token is always None. -/
theorem claim_C1 (fuel : Nat) (ik : IterKind) (d : Data) (startat : Nat) (stopon : TL)
    (r : PMSRes) (h : pms fuel ik d startat stopon = Except.ok r) :
    stopOK stopon r ∧ (stopon = [] → r.stopped = none) := by
  have hmain : stopOK stopon r := by
    unfold pms at h
    rcases hg : d.getloc (some startat) with _ | l <;> rw [hg] at h
    · cases h
    dsimp only at h
    refine plLoop_stopOK fuel ?_ h
    exact ⟨rfl, rfl⟩
  refine ⟨hmain, fun hemp => ?_⟩
  rcases hs : r.stopped with _ | ⟨t, off⟩
  · rfl
  · have h2 := hmain
    unfold stopOK at h2
    rw [hs] at h2
    obtain ⟨hmem, _, _⟩ := h2
    rw [hemp] at hmem
    cases hmem

/-- Witness for C1: parsing "abc)def\n" in the makefile regime with stop
set {")"} stops at the close paren with offset 4, the position just after
it, and that token is a member of the stop set. -/
theorem claim_C1_witness :
    stopOK [[')']]
        ⟨[ExpNode.lit ['a', 'b', 'c']], some ([')'], 4),
          Data.fromstring (("abc)def\n").data) ⟨"m", 1, 0⟩, []⟩
      ∧ (([[')']] : TL) = [] →
          (⟨[ExpNode.lit ['a', 'b', 'c']], some ([')'], 4),
            Data.fromstring (("abc)def\n").data) ⟨"m", 1, 0⟩, []⟩ : PMSRes).stopped = none) :=
  claim_C1 20 IterKind.makefile (Data.fromstring (("abc)def\n").data) ⟨"m", 1, 0⟩) 0 [[')']]
    ⟨[ExpNode.lit ['a', 'b', 'c']], some ([')'], 4),
      Data.fromstring (("abc)def\n").data) ⟨"m", 1, 0⟩, []⟩ rfl

end Pymake
